import Mathlib

/-!
Verification of the waveform display cache
(`src/tracks/playabletrack/wavetrack/ui/WaveformCache.cpp`).

The embedding models C++ doubles and floats as rational numbers (`ℚ`),
`sampleCount` as `ℤ`, and the per-channel `std::vector<std::unique_ptr<WaveCache>>`
as `List (Option WaveCache)`.  The durable sample store (`::GetWaveDisplay`
from GetWaveDisplay.cpp, an external collaborator) is a stub function stored
in the clip environment; its invocation range is recorded in the result for
instrumentation, mirroring the spec's "instrumented durable-store stub".
`sqrt` on floats is modelled by `Rat.sqrt` (exact on perfect squares).

Only the path where the caller did not supply pre-allocated buffers
(`display.where == 0`, i.e. `allocated == false`) is embedded: every claim
under verification is explicitly about that path.
-/

namespace WaveformCacheModel

section RatKernelEval

attribute [local semireducible] Rat.add Rat.sub Rat.mul Rat.inv Rat.ofScientific

/-- Nearest-integer rounding (half rounded up) used by the modelled grid
builder. -/
def roundQ (x : ℚ) : ℤ := ⌊x + 1/2⌋

/-- Embeds `class WaveCache` (WaveformCache.cpp lines 18-58): per-pixel
boundaries and min/max/rms arrays tagged with zoom, origin, rate and the
generation (`dirty`) stamp. -/
structure WaveCache where
  dirty : ℤ
  len : ℕ
  start : ℚ
  pps : ℚ
  rate : ℤ
  whereArr : List ℤ
  minArr : List ℚ
  maxArr : List ℚ
  rmsArr : List ℚ
deriving Repr, DecidableEq

/-- Embeds the default constructor `WaveCache()` (lines 20-30): `dirty = -1`,
`len = 0`, `start = -1`, `pps = 0`, `rate = -1`, all arrays empty. -/
def WaveCache.empty : WaveCache :=
  ⟨-1, 0, -1, 0, -1, [], [], [], []⟩

/-- Embeds the sized constructor `WaveCache(len_, pixelsPerSecond, rate_, t0,
dirty_)` (lines 32-43): `where` has `1 + len` zero entries, the three summary
arrays have `len` zero entries. -/
def WaveCache.mkSized (len : ℕ) (pixelsPerSecond : ℚ) (rate : ℤ) (t0 : ℚ)
    (dirty : ℤ) : WaveCache :=
  ⟨dirty, len, t0, pixelsPerSecond, rate,
    List.replicate (1 + len) 0,
    List.replicate len 0, List.replicate len 0, List.replicate len 0⟩

/-- Well-formedness of an entry: the arrays have the lengths the constructors
establish. -/
def WaveCache.WF (c : WaveCache) : Prop :=
  c.whereArr.length = c.len + 1 ∧ c.minArr.length = c.len ∧
  c.maxArr.length = c.len ∧ c.rmsArr.length = c.len

/-- The clip environment seen by `GetWaveDisplay`: trim offset, sample rate,
per-channel committed sample count (`sequence->GetNumSamples()`), the append
buffer (`GetAppendBufferLen` / `GetAppendBuffer(channel)`, samples already as
floats, i.e. the `seqFormat == floatSample` branch), and the durable-store
summarizer stub (`::GetWaveDisplay`, external collaborator: given the channel,
the boundary sub-array `where[p0..p1]` and the column count `p1 - p0`, it
either fails or returns the three summary arrays of that length). -/
structure Clip where
  trimLeft : ℚ
  rate : ℤ
  numSamples : ℕ → ℤ
  appendBufferLen : ℕ
  appendBuffer : ℕ → List ℚ
  seqSum : ℕ → List ℤ → ℕ → Option (List ℚ × List ℚ × List ℚ)

/-- The state of a `WaveClipWaveformCache` object: the per-channel entries
`mWaveCaches` and the generation counter `mDirty`. -/
structure CacheState where
  mWaveCaches : List (Option WaveCache)
  mDirty : ℤ
deriving Repr, DecidableEq

/-- Embeds the constructor `WaveClipWaveformCache(size_t nChannels)`
(lines 271-276): one fresh empty entry per channel.  The initial value of
`mDirty` is taken as 0 (its initializer lives in the header, outside src/;
the spec only calls it a monotonic counter, and no claim depends on the
initial value). -/
def construct (nChannels : ℕ) : CacheState :=
  ⟨List.replicate nChannels (some WaveCache.empty), 0⟩

/-- Embeds `WaveClipWaveformCache::MarkChanged` (lines 292-295). -/
def MarkChanged (s : CacheState) : CacheState :=
  { s with mDirty := s.mDirty + 1 }

/-- Embeds `WaveClipWaveformCache::Invalidate` (lines 297-302): every channel
gets a fresh empty entry. -/
def Invalidate (s : CacheState) : CacheState :=
  { s with mWaveCaches := s.mWaveCaches.map (fun _ => some WaveCache.empty) }

/-- Embeds the tolerant pps comparison (lines 100-101):
`waveCache && fabs(tstep - 1/waveCache->pps) * numPixels < 1/rate`. -/
def ppsMatchB (cache : Option WaveCache) (tstep : ℚ) (numPixels : ℕ)
    (rate : ℤ) : Bool :=
  match cache with
  | none => false
  | some c => decide (|tstep - 1 / c.pps| * (numPixels : ℚ) < 1 / (rate : ℚ))

/-- Embeds the `match` condition (lines 103-107): entry present, pps match,
nonzero length, generation stamp equal to the current counter. -/
def matchB (cache : Option WaveCache) (tstep : ℚ) (numPixels : ℕ)
    (rate : ℤ) (mDirty : ℤ) : Bool :=
  match cache with
  | none => false
  | some c =>
    ppsMatchB (some c) tstep numPixels rate && decide (0 < c.len) &&
      decide (c.dirty = mDirty)

/-- Modelled from the spec: the CorrectionSolver `findCorrection`
(WaveClipUtilities, not under src/).  Spec 4.2: the integer pixel offset
`oldX0` such that new pixel 0 most closely aligns to old pixel `oldX0`,
computed in closed form from the difference between the new origin (in
samples, `t0 * rate`) and the old grid's first boundary, divided by
samples-per-pixel; `correction` is the residual sub-sample misalignment in
pixel units. -/
def findCorrection (oldWhere : List ℤ) (t0 : ℚ) (rate : ℤ)
    (samplesPerPixel : ℚ) : ℤ × ℚ :=
  let off : ℚ := (t0 * (rate : ℚ) - ((oldWhere.headD 0 : ℤ) : ℚ)) / samplesPerPixel
  let oldX0 : ℤ := roundQ off
  (oldX0, off - (oldX0 : ℚ))

/-- Embeds the copyable-range computation (lines 133-136):
`copyBegin = min(numPixels, max(0, -oldX0))`,
`copyEnd = min(numPixels, max(0, oldLen - oldX0))`. -/
def copyRange (oldLen : ℕ) (oldX0 : ℤ) (numPixels : ℕ) : ℕ × ℕ :=
  (min numPixels (max 0 (-oldX0)).toNat,
   min numPixels (max 0 ((oldLen : ℤ) - oldX0)).toNat)

/-- Embeds line 151: `p0 = (copyBegin > 0) ? 0 : copyEnd`. -/
def computeP0 (copyBegin copyEnd : ℕ) : ℕ :=
  if 0 < copyBegin then 0 else copyEnd

/-- Embeds line 152: `p1 = (copyEnd >= numPixels) ? copyBegin : numPixels`. -/
def computeP1 (copyBegin copyEnd numPixels : ℕ) : ℕ :=
  if numPixels ≤ copyEnd then copyBegin else numPixels

/-- Modelled from the spec: the GridBuilder `fillWhere` (WaveClipUtilities,
not under src/).  Spec 4.3: `boundaries[i] = round((timeOrigin -
correction*samplesPerPixel) + i*samplesPerPixel)` in sample units (the time
origin in samples is `t0 * rate`); the call site (line 147) passes bias 0.0.
Produces `numPixels + 1` boundaries, monotone because rounding is monotone. -/
def fillWhere (numPixels : ℕ) (bias correction : ℚ) (t0 : ℚ) (rate : ℤ)
    (samplesPerPixel : ℚ) : List ℤ :=
  (List.range (numPixels + 1)).map fun i =>
    roundQ (t0 * (rate : ℚ) + bias - correction * samplesPerPixel +
      (i : ℚ) * samplesPerPixel)

/-- Overwrite `dst[i]` with `f i` for each `i ∈ [start, start + n)` — the
common shape of the copy step's `memcpy` and of the durable-store summarizer
writing its output columns. -/
def setEach (dst : List ℚ) (start n : ℕ) (f : ℕ → ℚ) : List ℚ :=
  (List.range' start n).foldl (fun d i => d.set i (f i)) dst

/-- Embeds the copy step (lines 158-167): for each destination index
`i ∈ [copyBegin, copyEnd)` write `src[i + oldX0]`
(`memcpy(&dst[copyBegin], &src[copyBegin + oldX0], (copyEnd-copyBegin)*4)`). -/
def copySeg (dst src : List ℚ) (copyBegin copyEnd : ℕ) (oldX0 : ℤ) : List ℚ :=
  setEach dst copyBegin (copyEnd - copyBegin)
    (fun i => src.getD ((i : ℤ) + oldX0).toNat 0)

/-- Embeds the scan loop (lines 182-185): advance `a` from `p0` while
`where[a + 1] <= numSamples`, stopping at the first column whose end boundary
exceeds the committed sample count (or at `p1`).  The second argument is the
remaining fuel `p1 - a`. -/
def scanAppendStart (wh : List ℤ) (ns : ℤ) : ℕ → ℕ → ℕ
  | a, 0 => a
  | a, fuel + 1 => if ns < wh.getD (a + 1) 0 then a else scanAppendStart wh ns (a + 1) fuel

/-- Embeds line 195-196: `left = max(0, where[i] - numSamples)`. -/
def appendLeft (wh : List ℤ) (ns : ℤ) (i : ℕ) : ℤ :=
  max 0 (wh.getD i 0 - ns)

/-- Embeds line 197-198: `right = min(appendBufferLen, where[i+1] - numSamples)`. -/
def appendRight (wh : List ℤ) (ns : ℤ) (abl : ℕ) (i : ℕ) : ℤ :=
  min (abl : ℤ) (wh.getD (i + 1) 0 - ns)

/-- Embeds the per-column summary over the append buffer (lines 202-235):
samples `buf[sLeft .. sLeft+len)`, min and max by folding from the first
sample, `rms = sqrt(sumsq / len)`. -/
def bufferSummary (buf : List ℚ) (sLeft len : ℕ) : ℚ × ℚ × ℚ :=
  match (buf.drop sLeft).take len with
  | [] => (0, 0, 0)
  | v :: rest =>
    (rest.foldl min v, rest.foldl max v,
     Rat.sqrt ((rest.foldl (fun s x => s + x * x) (v * v)) / (len : ℚ)))

/-- The test of line 202 for column `i`: the clipped range `[left, right)`
into the append buffer is nonempty. -/
def appendHandled (wh : List ℤ) (ns : ℤ) (abl : ℕ) (i : ℕ) : Bool :=
  decide (appendLeft wh ns i < appendRight wh ns abl i)

/-- The summary the append-buffer loop computes for column `i` (lines
202-235). -/
def appendVal (wh : List ℤ) (ns : ℤ) (abl : ℕ) (buf : List ℚ) (i : ℕ) :
    ℚ × ℚ × ℚ :=
  bufferSummary buf (appendLeft wh ns i).toNat
    (appendRight wh ns abl i - appendLeft wh ns i).toNat

/-- One iteration of the append-buffer loop (lines 194-239) at column `i`:
if the clipped range `[left, right)` is nonempty, overwrite the three arrays
at `i` with the buffer summary and set `didUpdate`. -/
def appendStep (wh : List ℤ) (ns : ℤ) (abl : ℕ) (buf : List ℚ)
    (acc : List ℚ × List ℚ × List ℚ × Bool) (i : ℕ) :
    List ℚ × List ℚ × List ℚ × Bool :=
  if appendHandled wh ns abl i then
    let s := appendVal wh ns abl buf i
    (acc.1.set i s.1, acc.2.1.set i s.2.1, acc.2.2.1.set i s.2.2, true)
  else acc

/-- Embeds the append-buffer loop (lines 193-239): fold `appendStep` over the
columns `a, a+1, ..., p1-1`, starting with `didUpdate = false`. -/
def appendCols (wh : List ℤ) (ns : ℤ) (abl : ℕ) (buf : List ℚ) (a p1 : ℕ)
    (mn mx rm : List ℚ) : List ℚ × List ℚ × List ℚ × Bool :=
  (List.range' a (p1 - a)).foldl (appendStep wh ns abl buf) (mn, mx, rm, false)

/-- Overwrite `dst[p0 + j]` with `src[j]` for `j < count` (the durable-store
summarizer writing `count` columns starting at `p0`). -/
def writeRange (dst : List ℚ) (p0 : ℕ) (src : List ℚ) (count : ℕ) : List ℚ :=
  setEach dst p0 count (fun i => src.getD (i - p0) 0)

/-- The outcome of the recompute block: success flag, the three arrays after
all writes, and the instrumented record of the durable-store invocation range
(`none` when the durable store was not called). -/
structure RecomputeResult where
  ok : Bool
  minA : List ℚ
  maxA : List ℚ
  rmsA : List ℚ
  seqCall : Option (ℕ × ℕ)
deriving Repr, DecidableEq

/-- The arrays and `didUpdate` flag after the append-buffer loop of the
recompute block (lines 180-239): the loop runs only when the scan stopped
before `p1`. -/
def recomputePassed (clip : Clip) (channel : ℕ) (wh : List ℤ)
    (mn mx rm : List ℚ) (p0 p1 : ℕ) : List ℚ × List ℚ × List ℚ × Bool :=
  let ns := clip.numSamples channel
  let a := scanAppendStart wh ns p0 (p1 - p0)
  if a < p1 then
    appendCols wh ns clip.appendBufferLen (clip.appendBuffer channel) a p1 mn mx rm
  else (mn, mx, rm, false)

/-- The value of `p1` after the append-buffer loop (lines 241-243: shrunk to
the scan position when the loop updated any column). -/
def recomputeP1x (clip : Clip) (channel : ℕ) (wh : List ℤ)
    (mn mx rm : List ℚ) (p0 p1 : ℕ) : ℕ :=
  let a := scanAppendStart wh (clip.numSamples channel) p0 (p1 - p0)
  if a < p1 && (recomputePassed clip channel wh mn mx rm p0 p1).2.2.2 then a
  else p1

/-- Embeds the recompute block (lines 170-258): if `p1 > p0`, scan for the
first column ending past the committed count, run the append-buffer loop from
there, shrink `p1` to the scan position if the loop updated anything, and
summarize the remaining `[p0, p1)` through the durable store, propagating its
failure. -/
def recompute (clip : Clip) (channel : ℕ) (wh : List ℤ)
    (mn mx rm : List ℚ) (p0 p1 : ℕ) : RecomputeResult :=
  if p0 < p1 then
    let passed := recomputePassed clip channel wh mn mx rm p0 p1
    let p1x := recomputeP1x clip channel wh mn mx rm p0 p1
    if p0 < p1x then
      match clip.seqSum channel ((wh.drop p0).take (p1x - p0 + 1)) (p1x - p0) with
      | none => ⟨false, passed.1, passed.2.1, passed.2.2.1, some (p0, p1x)⟩
      | some res =>
        ⟨true, writeRange passed.1 p0 res.1 (p1x - p0),
          writeRange passed.2.1 p0 res.2.1 (p1x - p0),
          writeRange passed.2.2.1 p0 res.2.2 (p1x - p0), some (p0, p1x)⟩
    else ⟨true, passed.1, passed.2.1, passed.2.2.1, none⟩
  else ⟨true, mn, mx, rm, none⟩

/-- The observable outcome of a `GetWaveDisplay` call on the
non-caller-buffer path: success flag, the arrays the display pointers expose,
the durable-store invocation record, and the state after the call. -/
structure DisplayResult where
  ok : Bool
  minOut : List ℚ
  maxOut : List ℚ
  rmsOut : List ℚ
  whereOut : List ℤ
  seqCall : Option (ℕ × ℕ)
  state : CacheState
deriving Repr, DecidableEq

/-- Embeds the exact-hit fast-path condition (lines 109-111):
`match && waveCache->start == t0 && waveCache->len >= numPixels`. -/
def fastHitB (cache : Option WaveCache) (tstep : ℚ) (numPixels : ℕ)
    (rate : ℤ) (mDirty : ℤ) (t0 : ℚ) : Bool :=
  match cache with
  | none => false
  | some c =>
    matchB (some c) tstep numPixels rate mDirty && decide (c.start = t0) &&
      decide (numPixels ≤ c.len)

/-- Embeds the correction and copy-range computation (lines 123-137):
`(oldX0, correction, copyBegin, copyEnd)`, all zero unless `match` held with
an entry present. -/
def corrParts (cache : Option WaveCache) (mtch : Bool) (t0 : ℚ) (rate : ℤ)
    (samplesPerPixel : ℚ) (numPixels : ℕ) : ℤ × ℚ × ℕ × ℕ :=
  if mtch then
    match cache with
    | some c =>
      let fc := findCorrection c.whereArr t0 rate samplesPerPixel
      let cr := copyRange c.len fc.1 numPixels
      (fc.1, fc.2, cr.1, cr.2)
    | none => ((0 : ℤ), (0 : ℚ), 0, 0)
  else ((0 : ℤ), (0 : ℚ), 0, 0)

/-- The `(oldX0, correction, copyBegin, copyEnd)` tuple of the replacement
path, computed from the state and the request (lines 123-137). -/
def slowCorr (s : CacheState) (clip : Clip) (channel : ℕ)
    (width : ℕ) (t0req : ℚ) (pixelsPerSecond : ℚ) : ℤ × ℚ × ℕ × ℕ :=
  let cacheOpt := s.mWaveCaches.getD channel none
  corrParts cacheOpt
    (matchB cacheOpt (1 / pixelsPerSecond) width clip.rate s.mDirty)
    (t0req + clip.trimLeft) clip.rate ((clip.rate : ℚ) * (1 / pixelsPerSecond))
    width

/-- The boundary array the replacement path builds for the new entry
(line 147). -/
def slowWhere (s : CacheState) (clip : Clip) (channel : ℕ)
    (width : ℕ) (t0req : ℚ) (pixelsPerSecond : ℚ) : List ℤ :=
  fillWhere width 0 (slowCorr s clip channel width t0req pixelsPerSecond).2.1
    (t0req + clip.trimLeft) clip.rate
    ((clip.rate : ℚ) * (1 / pixelsPerSecond))

/-- The lower end of the recompute range on the replacement path (line 151). -/
def slowP0 (s : CacheState) (clip : Clip) (channel : ℕ)
    (width : ℕ) (t0req : ℚ) (pixelsPerSecond : ℚ) : ℕ :=
  let corr := slowCorr s clip channel width t0req pixelsPerSecond
  computeP0 corr.2.2.1 corr.2.2.2

/-- The upper end of the recompute range on the replacement path (line 152). -/
def slowP1 (s : CacheState) (clip : Clip) (channel : ℕ)
    (width : ℕ) (t0req : ℚ) (pixelsPerSecond : ℚ) : ℕ :=
  let corr := slowCorr s clip channel width t0req pixelsPerSecond
  computeP1 corr.2.2.1 corr.2.2.2 width

/-- The three arrays of the new entry right after the copy step (lines
141-167): zero-initialized (the `std::vector<float>` constructor), with the
old entry's values copied over `[copyBegin, copyEnd)` when it was retained. -/
def slowCopied (s : CacheState) (clip : Clip) (channel : ℕ)
    (width : ℕ) (t0req : ℚ) (pixelsPerSecond : ℚ) :
    List ℚ × List ℚ × List ℚ :=
  let corr := slowCorr s clip channel width t0req pixelsPerSecond
  let oldCache :=
    if corr.2.2.1 < corr.2.2.2 then s.mWaveCaches.getD channel none else none
  let mn0 := List.replicate width (0 : ℚ)
  match oldCache with
  | some oc =>
    (copySeg mn0 oc.minArr corr.2.2.1 corr.2.2.2 corr.1,
     copySeg mn0 oc.maxArr corr.2.2.1 corr.2.2.2 corr.1,
     copySeg mn0 oc.rmsArr corr.2.2.1 corr.2.2.2 corr.1)
  | none => (mn0, mn0, mn0)

/-- The recompute block's outcome on the replacement path (lines 170-258). -/
def slowRec (s : CacheState) (clip : Clip) (channel : ℕ)
    (width : ℕ) (t0req : ℚ) (pixelsPerSecond : ℚ) : RecomputeResult :=
  let copied := slowCopied s clip channel width t0req pixelsPerSecond
  recompute clip channel (slowWhere s clip channel width t0req pixelsPerSecond)
    copied.1 copied.2.1 copied.2.2
    (slowP0 s clip channel width t0req pixelsPerSecond)
    (slowP1 s clip channel width t0req pixelsPerSecond)

/-- The entry the replacement path installs as the channel's cache entry
(line 141, arrays as they stand after lines 147-257). -/
def slowNewCache (s : CacheState) (clip : Clip) (channel : ℕ)
    (width : ℕ) (t0req : ℚ) (pixelsPerSecond : ℚ) : WaveCache :=
  let rc := slowRec s clip channel width t0req pixelsPerSecond
  ⟨s.mDirty, width, t0req + clip.trimLeft, pixelsPerSecond, clip.rate,
    slowWhere s clip channel width t0req pixelsPerSecond,
    rc.minA, rc.maxA, rc.rmsA⟩

/-- Embeds the cache-replacement path of `GetWaveDisplay` (lines 121-268,
taken when the exact-hit test fails): ownership transfer of the old entry,
correction/copy-range computation, fresh entry construction (line 141 — the
new entry is installed before the durable-store call, so it persists on the
failure return at line 255), grid fill, copy step, recompute block,
and the final report. -/
def slowPath (s : CacheState) (clip : Clip) (channel : ℕ)
    (width : ℕ) (t0req : ℚ) (pixelsPerSecond : ℚ) : DisplayResult :=
  let rc := slowRec s clip channel width t0req pixelsPerSecond
  let s' : CacheState :=
    { s with
      mWaveCaches := s.mWaveCaches.set channel
        (some (slowNewCache s clip channel width t0req pixelsPerSecond)) }
  if rc.ok then
    ⟨true, rc.minA, rc.maxA, rc.rmsA,
      slowWhere s clip channel width t0req pixelsPerSecond, rc.seqCall, s'⟩
  else
    ⟨false, [], [], [], [], rc.seqCall, s'⟩

/-- Embeds `WaveClipWaveformCache::GetWaveDisplay` (lines 65-269) on the path
where the caller did not supply buffers (`allocated == false`): trim
adjustment, exact-hit fast path (lines 109-119, returning the cached arrays
with no state change), otherwise the replacement path `slowPath`. -/
def GetWaveDisplay (s : CacheState) (clip : Clip) (channel : ℕ)
    (width : ℕ) (t0req : ℚ) (pixelsPerSecond : ℚ) : DisplayResult :=
  let t0 := t0req + clip.trimLeft
  let cacheOpt := s.mWaveCaches.getD channel none
  let tstep : ℚ := 1 / pixelsPerSecond
  if fastHitB cacheOpt tstep width clip.rate s.mDirty t0 then
    match cacheOpt with
    | some c => ⟨true, c.minArr, c.maxArr, c.rmsArr, c.whereArr, none, s⟩
    | none => slowPath s clip channel width t0req pixelsPerSecond
  else slowPath s clip channel width t0req pixelsPerSecond

/-! ### Shared lemmas about list access and the fold-based array writes -/

theorem getD_set_self {α : Type} (l : List α) (i : ℕ) (a d : α)
    (h : i < l.length) : (l.set i a).getD i d = a := by
  simp [List.getD_eq_getElem?_getD, List.getElem?_set_self h]

theorem getD_set_ne {α : Type} (l : List α) {i j : ℕ} (a d : α) (h : i ≠ j) :
    (l.set i a).getD j d = l.getD j d := by
  simp [List.getD_eq_getElem?_getD, List.getElem?_set_ne h]

theorem getD_some_lt {l : List (Option WaveCache)} {i : ℕ} {c : WaveCache}
    (h : l.getD i none = some c) : i < l.length := by
  by_contra hi
  rw [List.getD_eq_getElem?_getD, List.getElem?_eq_none (by omega)] at h
  simp at h

theorem setEach_cons (dst : List ℚ) (start n : ℕ) (f : ℕ → ℚ) :
    setEach dst start (n + 1) f =
      setEach (dst.set start (f start)) (start + 1) n f := by
  simp [setEach, List.range'_succ]

theorem setEach_length (f : ℕ → ℚ) (n : ℕ) :
    ∀ (start : ℕ) (dst : List ℚ), (setEach dst start n f).length = dst.length := by
  induction n with
  | zero => intro start dst; rfl
  | succ m ih =>
    intro start dst
    rw [setEach_cons, ih (start + 1) (dst.set start (f start)), List.length_set]

theorem setEach_getD_out (f : ℕ → ℚ) (n : ℕ) :
    ∀ (start : ℕ) (dst : List ℚ) (i : ℕ) (d : ℚ), i < start ∨ start + n ≤ i →
      (setEach dst start n f).getD i d = dst.getD i d := by
  induction n with
  | zero => intro start dst i d _; rfl
  | succ m ih =>
    intro start dst i d h
    rw [setEach_cons, ih (start + 1) _ i d (by omega),
      getD_set_ne _ _ _ (by omega)]

theorem setEach_getD_in (f : ℕ → ℚ) (n : ℕ) :
    ∀ (start : ℕ) (dst : List ℚ) (i : ℕ) (d : ℚ), start ≤ i → i < start + n →
      i < dst.length → (setEach dst start n f).getD i d = f i := by
  induction n with
  | zero => intro start dst i d h1 h2 _; omega
  | succ m ih =>
    intro start dst i d h1 h2 hlen
    rw [setEach_cons]
    by_cases hi : i = start
    · subst hi
      rw [setEach_getD_out f m (i + 1) _ i d (by omega),
        getD_set_self _ _ _ _ hlen]
    · exact ih (start + 1) _ i d (by omega) (by omega)
        (by rw [List.length_set]; exact hlen)

/-! ### Lemmas about the append-buffer scan loop -/

theorem scanAppendStart_ge (wh : List ℤ) (ns : ℤ) (fuel : ℕ) :
    ∀ a : ℕ, a ≤ scanAppendStart wh ns a fuel := by
  induction fuel with
  | zero => intro a; simp [scanAppendStart]
  | succ m ih =>
    intro a
    simp only [scanAppendStart]
    split
    · exact Nat.le_refl a
    · exact Nat.le_trans (Nat.le_succ a) (ih (a + 1))

theorem scanAppendStart_le (wh : List ℤ) (ns : ℤ) (fuel : ℕ) :
    ∀ a : ℕ, scanAppendStart wh ns a fuel ≤ a + fuel := by
  induction fuel with
  | zero => intro a; simp [scanAppendStart]
  | succ m ih =>
    intro a
    simp only [scanAppendStart]
    split
    · omega
    · have := ih (a + 1); omega

theorem scanAppendStart_before (wh : List ℤ) (ns : ℤ) (fuel : ℕ) :
    ∀ a j : ℕ, a ≤ j → j < scanAppendStart wh ns a fuel →
      wh.getD (j + 1) 0 ≤ ns := by
  induction fuel with
  | zero =>
    intro a j h1 h2; simp [scanAppendStart] at h2; omega
  | succ m ih =>
    intro a j h1 h2
    simp only [scanAppendStart] at h2
    split at h2
    · omega
    · rename_i hneg
      by_cases hj : j = a
      · subst hj; omega
      · exact ih (a + 1) j (by omega) h2

/-! ### Lemmas about the append-buffer loop fold -/

theorem appendStep_len (wh : List ℤ) (ns : ℤ) (abl : ℕ) (buf : List ℚ)
    (acc : List ℚ × List ℚ × List ℚ × Bool) (i : ℕ) :
    (appendStep wh ns abl buf acc i).1.length = acc.1.length ∧
    (appendStep wh ns abl buf acc i).2.1.length = acc.2.1.length ∧
    (appendStep wh ns abl buf acc i).2.2.1.length = acc.2.2.1.length := by
  simp only [appendStep]
  split <;> simp

theorem appendFold_len (wh : List ℤ) (ns : ℤ) (abl : ℕ) (buf : List ℚ)
    (n : ℕ) :
    ∀ (a : ℕ) (acc : List ℚ × List ℚ × List ℚ × Bool),
      (((List.range' a n).foldl (appendStep wh ns abl buf) acc).1.length =
          acc.1.length ∧
        ((List.range' a n).foldl (appendStep wh ns abl buf) acc).2.1.length =
          acc.2.1.length ∧
        ((List.range' a n).foldl (appendStep wh ns abl buf) acc).2.2.1.length =
          acc.2.2.1.length) := by
  induction n with
  | zero => intro a acc; exact ⟨rfl, rfl, rfl⟩
  | succ m ih =>
    intro a acc
    rw [List.range'_succ, List.foldl_cons]
    obtain ⟨h1, h2, h3⟩ := ih (a + 1) (appendStep wh ns abl buf acc a)
    obtain ⟨g1, g2, g3⟩ := appendStep_len wh ns abl buf acc a
    exact ⟨h1.trans g1, h2.trans g2, h3.trans g3⟩

theorem appendFold_out (wh : List ℤ) (ns : ℤ) (abl : ℕ) (buf : List ℚ)
    (n : ℕ) :
    ∀ (a : ℕ) (acc : List ℚ × List ℚ × List ℚ × Bool) (i : ℕ) (d : ℚ),
      i < a ∨ a + n ≤ i →
      (((List.range' a n).foldl (appendStep wh ns abl buf) acc).1.getD i d =
          acc.1.getD i d ∧
        ((List.range' a n).foldl (appendStep wh ns abl buf) acc).2.1.getD i d =
          acc.2.1.getD i d ∧
        ((List.range' a n).foldl (appendStep wh ns abl buf) acc).2.2.1.getD i d =
          acc.2.2.1.getD i d) := by
  induction n with
  | zero => intro a acc i d _; exact ⟨rfl, rfl, rfl⟩
  | succ m ih =>
    intro a acc i d h
    rw [List.range'_succ, List.foldl_cons]
    obtain ⟨h1, h2, h3⟩ :=
      ih (a + 1) (appendStep wh ns abl buf acc a) i d (by omega)
    rw [h1, h2, h3]
    simp only [appendStep]
    split
    · exact ⟨getD_set_ne _ _ _ (by omega), getD_set_ne _ _ _ (by omega),
        getD_set_ne _ _ _ (by omega)⟩
    · exact ⟨rfl, rfl, rfl⟩

theorem appendFold_in_handled (wh : List ℤ) (ns : ℤ) (abl : ℕ) (buf : List ℚ)
    (n : ℕ) :
    ∀ (a : ℕ) (acc : List ℚ × List ℚ × List ℚ × Bool) (i : ℕ) (d : ℚ),
      a ≤ i → i < a + n → i < acc.1.length → i < acc.2.1.length →
      i < acc.2.2.1.length → appendHandled wh ns abl i = true →
      (((List.range' a n).foldl (appendStep wh ns abl buf) acc).1.getD i d =
          (appendVal wh ns abl buf i).1 ∧
        ((List.range' a n).foldl (appendStep wh ns abl buf) acc).2.1.getD i d =
          (appendVal wh ns abl buf i).2.1 ∧
        ((List.range' a n).foldl (appendStep wh ns abl buf) acc).2.2.1.getD i d =
          (appendVal wh ns abl buf i).2.2) := by
  induction n with
  | zero => intro a acc i d h1 h2 _ _ _ _; omega
  | succ m ih =>
    intro a acc i d h1 h2 hl1 hl2 hl3 hh
    rw [List.range'_succ, List.foldl_cons]
    by_cases hi : i = a
    · subst hi
      obtain ⟨h4, h5, h6⟩ :=
        appendFold_out wh ns abl buf m (i + 1)
          (appendStep wh ns abl buf acc i) i d (by omega)
      rw [h4, h5, h6]
      simp only [appendStep, hh, if_true]
      exact ⟨getD_set_self _ _ _ _ hl1, getD_set_self _ _ _ _ hl2,
        getD_set_self _ _ _ _ hl3⟩
    · obtain ⟨g1, g2, g3⟩ := appendStep_len wh ns abl buf acc a
      exact ih (a + 1) (appendStep wh ns abl buf acc a) i d (by omega)
        (by omega) (by omega) (by omega) (by omega) hh

theorem appendFold_bool (wh : List ℤ) (ns : ℤ) (abl : ℕ) (buf : List ℚ)
    (n : ℕ) :
    ∀ (a : ℕ) (acc : List ℚ × List ℚ × List ℚ × Bool),
      ((List.range' a n).foldl (appendStep wh ns abl buf) acc).2.2.2 =
        (acc.2.2.2 || (List.range' a n).any (fun i => appendHandled wh ns abl i)) := by
  induction n with
  | zero => intro a acc; simp
  | succ m ih =>
    intro a acc
    rw [List.range'_succ, List.foldl_cons, List.any_cons,
      ih (a + 1) (appendStep wh ns abl buf acc a)]
    simp only [appendStep]
    split
    · rename_i hh; simp [hh]
    · rename_i hh; simp only [Bool.not_eq_true] at hh; simp [hh]

/-! ### Lemmas about the per-column buffer summary -/

theorem foldl_min_mem (rest : List ℚ) : ∀ v : ℚ, rest.foldl min v ∈ v :: rest := by
  induction rest with
  | nil => intro v; simp
  | cons x xs ih =>
    intro v
    rw [List.foldl_cons]
    rcases List.mem_cons.mp (ih (min v x)) with h | h
    · rcases min_choice v x with hm | hm <;> rw [h, hm] <;> simp
    · simp [h]

theorem foldl_min_le_init (rest : List ℚ) : ∀ v : ℚ, rest.foldl min v ≤ v := by
  induction rest with
  | nil => intro v; exact le_refl v
  | cons x xs ih =>
    intro v
    rw [List.foldl_cons]
    exact le_trans (ih (min v x)) (min_le_left _ _)

theorem foldl_min_le (rest : List ℚ) :
    ∀ v : ℚ, ∀ x ∈ v :: rest, rest.foldl min v ≤ x := by
  induction rest with
  | nil =>
    intro v x hx
    rcases List.mem_cons.mp hx with rfl | h
    · exact le_refl x
    · simp at h
  | cons y ys ih =>
    intro v x hx
    rw [List.foldl_cons]
    rcases List.mem_cons.mp hx with rfl | h
    · exact le_trans (foldl_min_le_init ys (min x y)) (min_le_left _ _)
    · rcases List.mem_cons.mp h with rfl | h'
      · exact le_trans (foldl_min_le_init ys (min v x)) (min_le_right _ _)
      · exact ih (min v y) x (List.mem_cons_of_mem _ h')

theorem foldl_max_mem (rest : List ℚ) : ∀ v : ℚ, rest.foldl max v ∈ v :: rest := by
  induction rest with
  | nil => intro v; simp
  | cons x xs ih =>
    intro v
    rw [List.foldl_cons]
    rcases List.mem_cons.mp (ih (max v x)) with h | h
    · rcases max_choice v x with hm | hm <;> rw [h, hm] <;> simp
    · simp [h]

theorem foldl_max_ge_init (rest : List ℚ) : ∀ v : ℚ, v ≤ rest.foldl max v := by
  induction rest with
  | nil => intro v; exact le_refl v
  | cons x xs ih =>
    intro v
    rw [List.foldl_cons]
    exact le_trans (le_max_left _ _) (ih (max v x))

theorem foldl_max_ge (rest : List ℚ) :
    ∀ v : ℚ, ∀ x ∈ v :: rest, x ≤ rest.foldl max v := by
  induction rest with
  | nil =>
    intro v x hx
    rcases List.mem_cons.mp hx with rfl | h
    · exact le_refl x
    · simp at h
  | cons y ys ih =>
    intro v x hx
    rw [List.foldl_cons]
    rcases List.mem_cons.mp hx with rfl | h
    · exact le_trans (le_max_left _ _) (foldl_max_ge_init ys (max x y))
    · rcases List.mem_cons.mp h with rfl | h'
      · exact le_trans (le_max_right _ _) (foldl_max_ge_init ys (max v x))
      · exact ih (max v y) x (List.mem_cons_of_mem _ h')

theorem foldl_sumsq (l : List ℚ) :
    ∀ acc : ℚ, l.foldl (fun s x => s + x * x) acc =
      acc + (l.map (fun x => x * x)).sum := by
  induction l with
  | nil => intro acc; simp
  | cons x xs ih =>
    intro acc
    rw [List.foldl_cons, ih (acc + x * x)]
    simp [add_assoc]

theorem bufferSummary_spec (buf : List ℚ) (sLeft len : ℕ)
    (h : (buf.drop sLeft).take len ≠ []) :
    (bufferSummary buf sLeft len).1 ∈ (buf.drop sLeft).take len ∧
    (∀ x ∈ (buf.drop sLeft).take len, (bufferSummary buf sLeft len).1 ≤ x) ∧
    (bufferSummary buf sLeft len).2.1 ∈ (buf.drop sLeft).take len ∧
    (∀ x ∈ (buf.drop sLeft).take len, x ≤ (bufferSummary buf sLeft len).2.1) ∧
    (bufferSummary buf sLeft len).2.2 =
      Rat.sqrt ((((buf.drop sLeft).take len).map (fun x => x * x)).sum /
        (len : ℚ)) := by
  match hpb : (buf.drop sLeft).take len with
  | [] => exact absurd hpb h
  | v :: rest =>
    simp only [bufferSummary, hpb]
    refine ⟨foldl_min_mem rest v, foldl_min_le rest v, foldl_max_mem rest v,
      foldl_max_ge rest v, ?_⟩
    rw [foldl_sumsq rest (v * v)]
    simp

/-! ### Lemmas about the recompute block -/

theorem appendHandled_ends_beyond (wh : List ℤ) (ns : ℤ) (abl : ℕ) (i : ℕ)
    (hh : appendHandled wh ns abl i = true) : ns < wh.getD (i + 1) 0 := by
  simp only [appendHandled, appendLeft, appendRight, decide_eq_true_eq] at hh
  omega

theorem recomputePassed_out_lo (clip : Clip) (channel : ℕ) (wh : List ℤ)
    (mn mx rm : List ℚ) (p0 p1 i : ℕ) (d : ℚ) (hi : i < p0) :
    ((recomputePassed clip channel wh mn mx rm p0 p1).1.getD i d = mn.getD i d ∧
     (recomputePassed clip channel wh mn mx rm p0 p1).2.1.getD i d = mx.getD i d ∧
     (recomputePassed clip channel wh mn mx rm p0 p1).2.2.1.getD i d = rm.getD i d) := by
  simp only [recomputePassed]
  have ha := scanAppendStart_ge wh (clip.numSamples channel) (p1 - p0) p0
  split
  · exact appendFold_out wh (clip.numSamples channel) clip.appendBufferLen
      (clip.appendBuffer channel) _ _ _ i d (Or.inl (by omega))
  · exact ⟨rfl, rfl, rfl⟩

theorem recomputePassed_len (clip : Clip) (channel : ℕ) (wh : List ℤ)
    (mn mx rm : List ℚ) (p0 p1 : ℕ) :
    ((recomputePassed clip channel wh mn mx rm p0 p1).1.length = mn.length ∧
     (recomputePassed clip channel wh mn mx rm p0 p1).2.1.length = mx.length ∧
     (recomputePassed clip channel wh mn mx rm p0 p1).2.2.1.length = rm.length) := by
  simp only [recomputePassed]
  split
  · exact appendFold_len wh (clip.numSamples channel) clip.appendBufferLen
      (clip.appendBuffer channel) _ _ _
  · exact ⟨rfl, rfl, rfl⟩

theorem recompute_out_lo (clip : Clip) (channel : ℕ) (wh : List ℤ)
    (mn mx rm : List ℚ) (p0 p1 i : ℕ) (d : ℚ) (hi : i < p0) :
    ((recompute clip channel wh mn mx rm p0 p1).minA.getD i d = mn.getD i d ∧
     (recompute clip channel wh mn mx rm p0 p1).maxA.getD i d = mx.getD i d ∧
     (recompute clip channel wh mn mx rm p0 p1).rmsA.getD i d = rm.getD i d) := by
  obtain ⟨e1, e2, e3⟩ :=
    recomputePassed_out_lo clip channel wh mn mx rm p0 p1 i d hi
  simp only [recompute]
  split
  · split
    · split
      · exact ⟨e1, e2, e3⟩
      · dsimp only
        refine ⟨?_, ?_, ?_⟩
        · rw [writeRange, setEach_getD_out _ _ _ _ _ _ (Or.inl hi)]; exact e1
        · rw [writeRange, setEach_getD_out _ _ _ _ _ _ (Or.inl hi)]; exact e2
        · rw [writeRange, setEach_getD_out _ _ _ _ _ _ (Or.inl hi)]; exact e3
    · exact ⟨e1, e2, e3⟩
  · exact ⟨rfl, rfl, rfl⟩

theorem recompute_len (clip : Clip) (channel : ℕ) (wh : List ℤ)
    (mn mx rm : List ℚ) (p0 p1 : ℕ) :
    ((recompute clip channel wh mn mx rm p0 p1).minA.length = mn.length ∧
     (recompute clip channel wh mn mx rm p0 p1).maxA.length = mx.length ∧
     (recompute clip channel wh mn mx rm p0 p1).rmsA.length = rm.length) := by
  obtain ⟨e1, e2, e3⟩ := recomputePassed_len clip channel wh mn mx rm p0 p1
  simp only [recompute]
  split
  · split
    · split
      · exact ⟨e1, e2, e3⟩
      · dsimp only
        refine ⟨?_, ?_, ?_⟩
        · rw [writeRange, setEach_length]; exact e1
        · rw [writeRange, setEach_length]; exact e2
        · rw [writeRange, setEach_length]; exact e3
    · exact ⟨e1, e2, e3⟩
  · exact ⟨rfl, rfl, rfl⟩

theorem recompute_seqCall_shape (clip : Clip) (channel : ℕ) (wh : List ℤ)
    (mn mx rm : List ℚ) (p0 p1 : ℕ) :
    (recompute clip channel wh mn mx rm p0 p1).seqCall = none ∨
      ∃ q : ℕ, (recompute clip channel wh mn mx rm p0 p1).seqCall =
        some (p0, q) ∧ p0 < q ∧ q ≤ p1 := by
  simp only [recompute]
  split
  · rename_i hp
    have hle := scanAppendStart_le wh (clip.numSamples channel) (p1 - p0) p0
    have hq : recomputeP1x clip channel wh mn mx rm p0 p1 ≤ p1 := by
      simp only [recomputeP1x]
      split
      · rename_i hband
        have := (Bool.and_eq_true _ _).mp hband
        simp only [decide_eq_true_eq] at this
        omega
      · exact Nat.le_refl p1
    split
    · rename_i hp0x
      split
      · exact Or.inr ⟨_, rfl, hp0x, hq⟩
      · exact Or.inr ⟨_, rfl, hp0x, hq⟩
    · exact Or.inl rfl
  · exact Or.inl rfl

theorem recompute_handled (clip : Clip) (channel : ℕ) (wh : List ℤ)
    (mn mx rm : List ℚ) (p0 p1 i : ℕ) (d : ℚ)
    (h0 : p0 ≤ i) (h1 : i < p1)
    (hh : appendHandled wh (clip.numSamples channel) clip.appendBufferLen i = true)
    (hl1 : i < mn.length) (hl2 : i < mx.length) (hl3 : i < rm.length) :
    ((recompute clip channel wh mn mx rm p0 p1).minA.getD i d =
        (appendVal wh (clip.numSamples channel) clip.appendBufferLen
          (clip.appendBuffer channel) i).1 ∧
     (recompute clip channel wh mn mx rm p0 p1).maxA.getD i d =
        (appendVal wh (clip.numSamples channel) clip.appendBufferLen
          (clip.appendBuffer channel) i).2.1 ∧
     (recompute clip channel wh mn mx rm p0 p1).rmsA.getD i d =
        (appendVal wh (clip.numSamples channel) clip.appendBufferLen
          (clip.appendBuffer channel) i).2.2 ∧
     ∀ q1 q2 : ℕ, (recompute clip channel wh mn mx rm p0 p1).seqCall =
        some (q1, q2) → q2 ≤ i) := by
  have hia : scanAppendStart wh (clip.numSamples channel) p0 (p1 - p0) ≤ i := by
    by_contra hlt
    have hble := scanAppendStart_before wh (clip.numSamples channel) (p1 - p0)
      p0 i h0 (by omega)
    have := appendHandled_ends_beyond wh (clip.numSamples channel)
      clip.appendBufferLen i hh
    omega
  have hap1 : scanAppendStart wh (clip.numSamples channel) p0 (p1 - p0) < p1 := by
    omega
  have hpassed : recomputePassed clip channel wh mn mx rm p0 p1 =
      appendCols wh (clip.numSamples channel) clip.appendBufferLen
        (clip.appendBuffer channel)
        (scanAppendStart wh (clip.numSamples channel) p0 (p1 - p0)) p1 mn mx rm := by
    simp only [recomputePassed]
    rw [if_pos hap1]
  obtain ⟨e1, e2, e3⟩ :=
    appendFold_in_handled wh (clip.numSamples channel) clip.appendBufferLen
      (clip.appendBuffer channel)
      (p1 - scanAppendStart wh (clip.numSamples channel) p0 (p1 - p0))
      (scanAppendStart wh (clip.numSamples channel) p0 (p1 - p0))
      (mn, mx, rm, false) i d hia (by omega) hl1 hl2 hl3 hh
  have hbool : (recomputePassed clip channel wh mn mx rm p0 p1).2.2.2 = true := by
    rw [hpassed, appendCols, appendFold_bool]
    refine Bool.or_eq_true_iff.mpr (Or.inr ?_)
    refine List.any_eq_true.mpr ⟨i, ?_, hh⟩
    exact List.mem_range'_1.mpr ⟨hia, by omega⟩
  have hp1x : recomputeP1x clip channel wh mn mx rm p0 p1 =
      scanAppendStart wh (clip.numSamples channel) p0 (p1 - p0) := by
    simp only [recomputeP1x]
    rw [if_pos]
    rw [Bool.and_eq_true]
    exact ⟨decide_eq_true hap1, hbool⟩
  have hpv1 : (recomputePassed clip channel wh mn mx rm p0 p1).1.getD i d =
      (appendVal wh (clip.numSamples channel) clip.appendBufferLen
        (clip.appendBuffer channel) i).1 := by
    rw [hpassed, appendCols]; exact e1
  have hpv2 : (recomputePassed clip channel wh mn mx rm p0 p1).2.1.getD i d =
      (appendVal wh (clip.numSamples channel) clip.appendBufferLen
        (clip.appendBuffer channel) i).2.1 := by
    rw [hpassed, appendCols]; exact e2
  have hpv3 : (recomputePassed clip channel wh mn mx rm p0 p1).2.2.1.getD i d =
      (appendVal wh (clip.numSamples channel) clip.appendBufferLen
        (clip.appendBuffer channel) i).2.2 := by
    rw [hpassed, appendCols]; exact e3
  simp only [recompute]
  rw [if_pos (by omega : p0 < p1), hp1x]
  split
  · split
    · dsimp only
      refine ⟨hpv1, hpv2, hpv3, ?_⟩
      intro q1 q2 hq
      injection hq with hq'
      injection hq' with hq1 hq2
      omega
    · dsimp only
      refine ⟨?_, ?_, ?_, ?_⟩
      · rw [writeRange, setEach_getD_out _ _ _ _ _ _ (Or.inr (by omega))]
        exact hpv1
      · rw [writeRange, setEach_getD_out _ _ _ _ _ _ (Or.inr (by omega))]
        exact hpv2
      · rw [writeRange, setEach_getD_out _ _ _ _ _ _ (Or.inr (by omega))]
        exact hpv3
      · intro q1 q2 hq
        injection hq with hq'
        injection hq' with hq1 hq2
        omega
  · dsimp only
    refine ⟨hpv1, hpv2, hpv3, ?_⟩
    intro q1 q2 hq
    exact absurd hq (by simp)

theorem recompute_seqCall_shrunk (clip : Clip) (channel : ℕ) (wh : List ℤ)
    (mn mx rm : List ℚ) (p0 p1 : ℕ)
    (hupd : (recomputePassed clip channel wh mn mx rm p0 p1).2.2.2 = true)
    (ha : scanAppendStart wh (clip.numSamples channel) p0 (p1 - p0) < p1) :
    (recompute clip channel wh mn mx rm p0 p1).seqCall = none ∨
      (recompute clip channel wh mn mx rm p0 p1).seqCall =
        some (p0, scanAppendStart wh (clip.numSamples channel) p0 (p1 - p0)) := by
  have hp1x : recomputeP1x clip channel wh mn mx rm p0 p1 =
      scanAppendStart wh (clip.numSamples channel) p0 (p1 - p0) := by
    simp only [recomputeP1x]
    rw [if_pos]
    rw [Bool.and_eq_true]
    exact ⟨decide_eq_true ha, hupd⟩
  simp only [recompute]
  split
  · rw [hp1x]
    split
    · split
      · exact Or.inr rfl
      · exact Or.inr rfl
    · exact Or.inl rfl
  · exact Or.inl rfl

/-! ### Glue lemmas for the two paths of GetWaveDisplay -/

theorem GetWaveDisplay_fast (s : CacheState) (clip : Clip) (channel : ℕ)
    (width : ℕ) (t0req : ℚ) (pps : ℚ) (c : WaveCache)
    (hc : s.mWaveCaches.getD channel none = some c)
    (hfast : fastHitB (some c) (1 / pps) width clip.rate s.mDirty
      (t0req + clip.trimLeft) = true) :
    GetWaveDisplay s clip channel width t0req pps =
      ⟨true, c.minArr, c.maxArr, c.rmsArr, c.whereArr, none, s⟩ := by
  simp only [GetWaveDisplay]
  rw [hc, hfast]
  simp

theorem GetWaveDisplay_slow (s : CacheState) (clip : Clip) (channel : ℕ)
    (width : ℕ) (t0req : ℚ) (pps : ℚ)
    (h : fastHitB (s.mWaveCaches.getD channel none) (1 / pps) width clip.rate
      s.mDirty (t0req + clip.trimLeft) = false) :
    GetWaveDisplay s clip channel width t0req pps =
      slowPath s clip channel width t0req pps := by
  simp only [GetWaveDisplay]
  rw [h]
  simp

theorem slowPath_state (s : CacheState) (clip : Clip) (channel : ℕ)
    (width : ℕ) (t0req : ℚ) (pps : ℚ) :
    (slowPath s clip channel width t0req pps).state =
      { s with mWaveCaches := (s.mWaveCaches.set channel
          (some (slowNewCache s clip channel width t0req pps))) } := by
  simp only [slowPath]
  split <;> rfl

theorem slowPath_entry (s : CacheState) (clip : Clip) (channel : ℕ)
    (width : ℕ) (t0req : ℚ) (pps : ℚ)
    (hch : channel < s.mWaveCaches.length) :
    (slowPath s clip channel width t0req pps).state.mWaveCaches.getD channel
        none = some (slowNewCache s clip channel width t0req pps) := by
  rw [slowPath_state]
  exact getD_set_self _ _ _ _ (by simpa using hch)

theorem slowPath_seqCall (s : CacheState) (clip : Clip) (channel : ℕ)
    (width : ℕ) (t0req : ℚ) (pps : ℚ) :
    (slowPath s clip channel width t0req pps).seqCall =
      (slowRec s clip channel width t0req pps).seqCall := by
  simp only [slowPath]
  split <;> rfl

theorem slowPath_ok (s : CacheState) (clip : Clip) (channel : ℕ)
    (width : ℕ) (t0req : ℚ) (pps : ℚ) :
    (slowPath s clip channel width t0req pps).ok =
      (slowRec s clip channel width t0req pps).ok := by
  simp only [slowPath]
  split
  · rename_i h; exact h.symm
  · rename_i h; simp only [Bool.not_eq_true] at h; exact h.symm

theorem slowPath_minOut (s : CacheState) (clip : Clip) (channel : ℕ)
    (width : ℕ) (t0req : ℚ) (pps : ℚ)
    (hok : (slowRec s clip channel width t0req pps).ok = true) :
    ((slowPath s clip channel width t0req pps).minOut =
        (slowRec s clip channel width t0req pps).minA ∧
      (slowPath s clip channel width t0req pps).maxOut =
        (slowRec s clip channel width t0req pps).maxA ∧
      (slowPath s clip channel width t0req pps).rmsOut =
        (slowRec s clip channel width t0req pps).rmsA) := by
  simp only [slowPath]
  rw [if_pos hok]
  exact ⟨rfl, rfl, rfl⟩

/-! ### Concrete fixtures used by the concrete-instance theorems -/

/-- A one-column cache entry at origin 0, zoom 1, generation 0. -/
def entryA : WaveCache := ⟨0, 1, 0, 1, 1, [0, 1], [9], [9], [9]⟩

/-- A one-channel state holding `entryA`, generation counter 0. -/
def stateA : CacheState := ⟨[some entryA], 0⟩

/-- A one-channel state holding a fresh empty entry. -/
def stateEmptyEntry : CacheState := ⟨[some WaveCache.empty], 0⟩

/-- A clip whose durable store always fails (10 committed samples, empty
append buffer). -/
def clipFail : Clip := ⟨0, 1, fun _ => 10, 0, fun _ => [], fun _ _ _ => none⟩

/-- A clip whose durable store returns constant-5 summaries (1 committed
sample, empty append buffer). -/
def clipConst : Clip :=
  ⟨0, 1, fun _ => 1, 0, fun _ => [],
    fun _ _ n => some (List.replicate n 5, List.replicate n 5,
      List.replicate n 5)⟩

/-- A clip with 3 committed samples, a two-sample append buffer `[7, 9]`, and
a constant-5 durable store, at sample rate 2. -/
def clipAppend : Clip :=
  ⟨0, 2, fun _ => 3, 2, fun _ => [7, 9],
    fun _ _ n => some (List.replicate n 5, List.replicate n 5,
      List.replicate n 5)⟩

theorem GetWaveDisplay_state_cases (s : CacheState) (clip : Clip)
    (channel width : ℕ) (t0req pps : ℚ) :
    (GetWaveDisplay s clip channel width t0req pps).state = s ∨
      (GetWaveDisplay s clip channel width t0req pps).state.mWaveCaches =
        s.mWaveCaches.set channel
          (some (slowNewCache s clip channel width t0req pps)) := by
  simp only [GetWaveDisplay]
  split
  · split
    · exact Or.inl rfl
    · exact Or.inr (by rw [slowPath_state])
  · exact Or.inr (by rw [slowPath_state])

/-! ### The claims -/

/-- C7: for every copy range `[copyBegin, copyEnd)` (with
`copyBegin ≤ copyEnd ≤ requestedWidth`) the recompute range `[p0, p1)` is
`[copyEnd, requestedWidth)` when the copy range starts at pixel 0,
`[0, copyBegin)` when it ends at `requestedWidth`, and the full
`[0, requestedWidth)` otherwise (copy range touching neither edge, or no
copy) — partial-middle reuse never occurs. -/
theorem c7_recompute_range_rule (copyBegin copyEnd numPixels i : ℕ)
    (h1 : copyBegin ≤ copyEnd) (h2 : copyEnd ≤ numPixels) :
    ((computeP0 copyBegin copyEnd ≤ i ∧
        i < computeP1 copyBegin copyEnd numPixels) ↔
      (if copyBegin < copyEnd ∧ copyBegin = 0 then copyEnd ≤ i ∧ i < numPixels
       else if copyBegin < copyEnd ∧ copyEnd = numPixels then i < copyBegin
       else i < numPixels)) := by
  unfold computeP0 computeP1
  split_ifs <;> omega

theorem c7_witness :
    (1 ≤ 2 ∧ 2 ≤ 3) ∧
      ((computeP0 1 2 ≤ 0 ∧ 0 < computeP1 1 2 3) ↔
        (if 1 < 2 ∧ 1 = 0 then 2 ≤ 0 ∧ 0 < 3
         else if 1 < 2 ∧ 2 = 3 then 0 < 1
         else 0 < 3)) :=
  ⟨⟨by omega, by omega⟩, c7_recompute_range_rule 1 2 3 0 (by omega) (by omega)⟩

/-- The per-channel entry invariant of the manager: every slot of
`mWaveCaches` holds an entry (the `unique_ptr` is non-null). -/
def AllEntriesPresent (s : CacheState) : Prop :=
  ∀ e ∈ s.mWaveCaches, e.isSome = true

/-- C10: the constructor and `Invalidate` install fresh entries for every
channel, `MarkChanged` keeps them, and `GetWaveDisplay` installs a new entry
immediately after moving the old one out on the replacement path, before any
return (including the failure return) — so every per-channel cache pointer is
non-null after construction and stays non-null across every operation. -/
theorem c10_entries_always_present :
    (∀ n : ℕ, AllEntriesPresent (construct n)) ∧
    (∀ s : CacheState, AllEntriesPresent s → AllEntriesPresent (MarkChanged s)) ∧
    (∀ s : CacheState, AllEntriesPresent (Invalidate s)) ∧
    (∀ (s : CacheState) (clip : Clip) (channel width : ℕ) (t0req pps : ℚ),
      AllEntriesPresent s →
      AllEntriesPresent ((GetWaveDisplay s clip channel width t0req pps).state)) := by
  refine ⟨?_, ?_, ?_, ?_⟩
  · intro n e he
    simp only [construct] at he
    rw [List.eq_of_mem_replicate he]
    rfl
  · intro s h e he
    exact h e he
  · intro s e he
    simp only [Invalidate, List.mem_map] at he
    obtain ⟨a, _, rfl⟩ := he
    rfl
  · intro s clip channel width t0req pps h e he
    rcases GetWaveDisplay_state_cases s clip channel width t0req pps with
      hcase | hcase
    · rw [hcase] at he
      exact h e he
    · rw [hcase] at he
      rcases List.mem_or_eq_of_mem_set he with h' | h'
      · exact h e h'
      · rw [h']
        rfl

theorem c10_witness :
    AllEntriesPresent (construct 2) ∧
      AllEntriesPresent ((GetWaveDisplay stateA clipConst 0 1 0 1).state) :=
  ⟨c10_entries_always_present.1 2,
    c10_entries_always_present.2.2.2 stateA clipConst 0 1 0 1
      (by intro e he; simp only [stateA] at he; simp at he; simp [he])⟩

/-- C2: on the exact-hit fast path (usable-for-correction entry with equal
`timeOrigin` and sufficient length) `GetWaveDisplay` returns the cached
arrays directly with no recomputation, no durable-store call and no state
change; hence a second call with identical arguments returns the identical
result and again performs zero durable-store calls. -/
theorem c2_exact_hit_idempotent (s : CacheState) (clip : Clip)
    (channel width : ℕ) (t0req pps : ℚ) (c : WaveCache)
    (hc : s.mWaveCaches.getD channel none = some c)
    (hm : matchB (some c) (1 / pps) width clip.rate s.mDirty = true)
    (hs : c.start = t0req + clip.trimLeft)
    (hl : width ≤ c.len) :
    (GetWaveDisplay s clip channel width t0req pps =
        ⟨true, c.minArr, c.maxArr, c.rmsArr, c.whereArr, none, s⟩ ∧
      GetWaveDisplay (GetWaveDisplay s clip channel width t0req pps).state
          clip channel width t0req pps =
        GetWaveDisplay s clip channel width t0req pps ∧
      (GetWaveDisplay (GetWaveDisplay s clip channel width t0req pps).state
          clip channel width t0req pps).seqCall = none) := by
  have hfast : fastHitB (some c) (1 / pps) width clip.rate s.mDirty
      (t0req + clip.trimLeft) = true := by
    simp only [fastHitB]
    rw [hm, hs]
    simp [hl]
  have h1 := GetWaveDisplay_fast s clip channel width t0req pps c hc hfast
  refine ⟨h1, ?_, ?_⟩
  · rw [h1]
    dsimp only
    exact h1
  · rw [h1]
    dsimp only
    rw [h1]

theorem c2_witness :
    (stateA.mWaveCaches.getD 0 none = some entryA ∧
      matchB (some entryA) (1 / 1) 1 clipConst.rate stateA.mDirty = true ∧
      entryA.start = 0 + clipConst.trimLeft ∧ 1 ≤ entryA.len) ∧
    (GetWaveDisplay stateA clipConst 0 1 0 1 =
        ⟨true, entryA.minArr, entryA.maxArr, entryA.rmsArr, entryA.whereArr,
          none, stateA⟩ ∧
      GetWaveDisplay (GetWaveDisplay stateA clipConst 0 1 0 1).state
          clipConst 0 1 0 1 =
        GetWaveDisplay stateA clipConst 0 1 0 1 ∧
      (GetWaveDisplay (GetWaveDisplay stateA clipConst 0 1 0 1).state
          clipConst 0 1 0 1).seqCall = none) :=
  ⟨⟨by decide, by decide, by decide, by decide⟩,
    c2_exact_hit_idempotent stateA clipConst 0 1 0 1 entryA (by decide)
      (by decide) (by decide) (by decide)⟩

theorem fastHitB_none_false (tstep : ℚ) (w : ℕ) (rate mDirty : ℤ) (t0 : ℚ) :
    fastHitB none tstep w rate mDirty t0 = false := rfl

/-- C8: `MarkChanged` increments the generation counter and leaves every
existing entry physically unchanged; after it, a request with
previously-exact-match arguments fails the generation check, does not take
the exact-hit fast path, and instead installs a replacement entry stamped
with the new generation (so the old entry is recomputed away even though its
geometry still matches). -/
theorem c8_generation_invalidation (s : CacheState) (clip : Clip)
    (channel width : ℕ) (t0req pps : ℚ) (c : WaveCache)
    (hc : s.mWaveCaches.getD channel none = some c)
    (hm : matchB (some c) (1 / pps) width clip.rate s.mDirty = true)
    (hs : c.start = t0req + clip.trimLeft)
    (hl : width ≤ c.len) :
    ((MarkChanged s).mDirty = s.mDirty + 1 ∧
     (MarkChanged s).mWaveCaches = s.mWaveCaches ∧
     fastHitB (some c) (1 / pps) width clip.rate (MarkChanged s).mDirty
       (t0req + clip.trimLeft) = false ∧
     ∃ c' : WaveCache,
       (GetWaveDisplay (MarkChanged s) clip channel width t0req
           pps).state.mWaveCaches.getD channel none = some c' ∧
       c'.dirty = s.mDirty + 1 ∧ c' ≠ c) := by
  have hdirty : c.dirty = s.mDirty := by
    simp only [matchB, Bool.and_eq_true, decide_eq_true_eq] at hm
    exact hm.2
  have hdne : c.dirty ≠ s.mDirty + 1 := by omega
  have hfast : fastHitB (some c) (1 / pps) width clip.rate (MarkChanged s).mDirty
      (t0req + clip.trimLeft) = false := by
    simp only [MarkChanged]
    simp [fastHitB, matchB, hdne]
  have hc' : (MarkChanged s).mWaveCaches.getD channel none = some c := hc
  have hslow := GetWaveDisplay_slow (MarkChanged s) clip channel width t0req pps
    (by rw [hc']; exact hfast)
  have hch : channel < (MarkChanged s).mWaveCaches.length := getD_some_lt hc'
  refine ⟨rfl, rfl, hfast, slowNewCache (MarkChanged s) clip channel width t0req pps,
    ?_, rfl, ?_⟩
  · rw [hslow]
    exact slowPath_entry (MarkChanged s) clip channel width t0req pps hch
  · intro heq
    have : (slowNewCache (MarkChanged s) clip channel width t0req pps).dirty =
        c.dirty := by rw [heq]
    have hd2 : (slowNewCache (MarkChanged s) clip channel width t0req pps).dirty =
        s.mDirty + 1 := rfl
    omega

theorem c8_witness :
    (stateA.mWaveCaches.getD 0 none = some entryA ∧
      matchB (some entryA) (1 / 1) 1 clipConst.rate stateA.mDirty = true ∧
      entryA.start = 0 + clipConst.trimLeft ∧ 1 ≤ entryA.len) ∧
    ((MarkChanged stateA).mDirty = stateA.mDirty + 1 ∧
     (MarkChanged stateA).mWaveCaches = stateA.mWaveCaches ∧
     fastHitB (some entryA) (1 / 1) 1 clipConst.rate (MarkChanged stateA).mDirty
       (0 + clipConst.trimLeft) = false ∧
     ∃ c' : WaveCache,
       (GetWaveDisplay (MarkChanged stateA) clipConst 0 1 0
           1).state.mWaveCaches.getD 0 none = some c' ∧
       c'.dirty = stateA.mDirty + 1 ∧ c' ≠ entryA) :=
  ⟨⟨by decide, by decide, by decide, by decide⟩,
    c8_generation_invalidation stateA clipConst 0 1 0 1 entryA (by decide)
      (by decide) (by decide) (by decide)⟩

/-- C1 counterexample: a request whose durable-store call fails returns
failure, but the channel's installed entry after the call differs from the
entry installed before the call — the cache is NOT left in its last-good
state (refuting the claim as stated). -/
theorem c1_counterexample :
    (GetWaveDisplay stateA clipFail 0 1 1 1).ok = false ∧
    (GetWaveDisplay stateA clipFail 0 1 1 1).seqCall = some (0, 1) ∧
    (GetWaveDisplay stateA clipFail 0 1 1 1).state.mWaveCaches.getD 0 none ≠
      stateA.mWaveCaches.getD 0 none := by
  refine ⟨by decide, by decide, by decide⟩

/-- C1 (amended): if durable-store summarization fails on the
non-caller-buffer path, `GetWaveDisplay` fails, but the channel's entry has
already been replaced: the entry installed after the call is the newly built
entry for this request (length, origin, zoom and generation of the request),
not the previously installed entry. -/
theorem c1_failure_installs_new_entry (s : CacheState) (clip : Clip)
    (channel width : ℕ) (t0req pps : ℚ)
    (hch : channel < s.mWaveCaches.length)
    (hfail : (GetWaveDisplay s clip channel width t0req pps).ok = false) :
    ((GetWaveDisplay s clip channel width t0req pps).state.mWaveCaches.getD
        channel none =
      some (slowNewCache s clip channel width t0req pps) ∧
    (slowNewCache s clip channel width t0req pps).dirty = s.mDirty ∧
    (slowNewCache s clip channel width t0req pps).len = width ∧
    (slowNewCache s clip channel width t0req pps).start =
      t0req + clip.trimLeft ∧
    (slowNewCache s clip channel width t0req pps).pps = pps) := by
  have hslow : GetWaveDisplay s clip channel width t0req pps =
      slowPath s clip channel width t0req pps := by
    by_cases h : fastHitB (s.mWaveCaches.getD channel none) (1 / pps) width
        clip.rate s.mDirty (t0req + clip.trimLeft) = true
    · cases hcc : s.mWaveCaches.getD channel none with
      | none => rw [hcc, fastHitB_none_false] at h; exact absurd h (by simp)
      | some c =>
        exfalso
        rw [hcc] at h
        rw [GetWaveDisplay_fast s clip channel width t0req pps c hcc h]
          at hfail
        exact absurd hfail (by simp)
    · exact GetWaveDisplay_slow s clip channel width t0req pps
        (by simpa using h)
  rw [hslow]
  exact ⟨slowPath_entry s clip channel width t0req pps hch, rfl, rfl, rfl, rfl⟩

theorem c1_witness :
    (0 < stateA.mWaveCaches.length ∧
      (GetWaveDisplay stateA clipFail 0 1 1 1).ok = false) ∧
    ((GetWaveDisplay stateA clipFail 0 1 1 1).state.mWaveCaches.getD 0 none =
      some (slowNewCache stateA clipFail 0 1 1 1) ∧
    (slowNewCache stateA clipFail 0 1 1 1).dirty = stateA.mDirty ∧
    (slowNewCache stateA clipFail 0 1 1 1).len = 1 ∧
    (slowNewCache stateA clipFail 0 1 1 1).start = 1 + clipFail.trimLeft ∧
    (slowNewCache stateA clipFail 0 1 1 1).pps = 1) :=
  ⟨⟨by decide, by decide⟩,
    c1_failure_installs_new_entry stateA clipFail 0 1 1 1 (by decide)
      (by decide)⟩

/-- C9 counterexample: a `requestedWidth == 0` call (no caller buffers) on an
entry whose origin differs from the request DOES mutate the cache — the
previously installed entry is replaced (refuting the claim as stated). -/
theorem c9_counterexample :
    (GetWaveDisplay stateA clipConst 0 0 1 1).state.mWaveCaches.getD 0 none ≠
      stateA.mWaveCaches.getD 0 none := by decide

/-- C9 (amended): a `requestedWidth == 0` request (no caller buffers) returns
successfully with no computed columns and never invokes the durable store;
on the exact-hit fast path the cache is untouched, but otherwise the
channel's entry is replaced by a fresh empty entry (length 0, empty arrays)
stamped for the request — the previously installed entry is not retained in
general. -/
theorem c9_zero_width (s : CacheState) (clip : Clip) (channel : ℕ)
    (t0req pps : ℚ) :
    ((GetWaveDisplay s clip channel 0 t0req pps).ok = true ∧
     (GetWaveDisplay s clip channel 0 t0req pps).seqCall = none ∧
     (fastHitB (s.mWaveCaches.getD channel none) (1 / pps) 0 clip.rate
         s.mDirty (t0req + clip.trimLeft) = true →
       (GetWaveDisplay s clip channel 0 t0req pps).state = s) ∧
     (fastHitB (s.mWaveCaches.getD channel none) (1 / pps) 0 clip.rate
         s.mDirty (t0req + clip.trimLeft) = false →
       ((GetWaveDisplay s clip channel 0 t0req pps).state.mWaveCaches =
          s.mWaveCaches.set channel
            (some (slowNewCache s clip channel 0 t0req pps)) ∧
        (slowNewCache s clip channel 0 t0req pps).len = 0 ∧
        (slowNewCache s clip channel 0 t0req pps).minArr = [] ∧
        (slowNewCache s clip channel 0 t0req pps).maxArr = [] ∧
        (slowNewCache s clip channel 0 t0req pps).rmsArr = [] ∧
        (slowNewCache s clip channel 0 t0req pps).start =
          t0req + clip.trimLeft ∧
        (slowNewCache s clip channel 0 t0req pps).dirty = s.mDirty))) := by
  have hcr1 : (slowCorr s clip channel 0 t0req pps).2.2.1 = 0 := by
    simp only [slowCorr, corrParts]
    split
    · cases s.mWaveCaches.getD channel none with
      | none => rfl
      | some c => simp [copyRange]
    · rfl
  have hcr2 : (slowCorr s clip channel 0 t0req pps).2.2.2 = 0 := by
    simp only [slowCorr, corrParts]
    split
    · cases s.mWaveCaches.getD channel none with
      | none => rfl
      | some c => simp [copyRange]
    · rfl
  have hrec : slowRec s clip channel 0 t0req pps =
      ⟨true, [], [], [], none⟩ := by
    have hp0 : slowP0 s clip channel 0 t0req pps = 0 := by
      simp [slowP0, hcr1, hcr2, computeP0]
    have hp1 : slowP1 s clip channel 0 t0req pps = 0 := by
      simp [slowP1, hcr1, hcr2, computeP1]
    have hcopied : slowCopied s clip channel 0 t0req pps = ([], [], []) := by
      simp [slowCopied, hcr1, hcr2]
    rw [slowRec, hcopied, hp0, hp1]
    simp [recompute]
  refine ⟨?_, ?_, ?_, ?_⟩
  · by_cases h : fastHitB (s.mWaveCaches.getD channel none) (1 / pps) 0
        clip.rate s.mDirty (t0req + clip.trimLeft) = true
    · cases hcc : s.mWaveCaches.getD channel none with
      | none => rw [hcc, fastHitB_none_false] at h; exact absurd h (by simp)
      | some c =>
        rw [hcc] at h
        rw [GetWaveDisplay_fast s clip channel 0 t0req pps c hcc h]
    · rw [GetWaveDisplay_slow s clip channel 0 t0req pps (by simpa using h),
        slowPath_ok, hrec]
  · by_cases h : fastHitB (s.mWaveCaches.getD channel none) (1 / pps) 0
        clip.rate s.mDirty (t0req + clip.trimLeft) = true
    · cases hcc : s.mWaveCaches.getD channel none with
      | none => rw [hcc, fastHitB_none_false] at h; exact absurd h (by simp)
      | some c =>
        rw [hcc] at h
        rw [GetWaveDisplay_fast s clip channel 0 t0req pps c hcc h]
    · rw [GetWaveDisplay_slow s clip channel 0 t0req pps (by simpa using h),
        slowPath_seqCall, hrec]
  · intro h
    cases hcc : s.mWaveCaches.getD channel none with
    | none => rw [hcc, fastHitB_none_false] at h; exact absurd h (by simp)
    | some c =>
      rw [hcc] at h
      rw [GetWaveDisplay_fast s clip channel 0 t0req pps c hcc h]
  · intro h
    rw [GetWaveDisplay_slow s clip channel 0 t0req pps h, slowPath_state]
    refine ⟨rfl, rfl, ?_, ?_, ?_, rfl, rfl⟩
    · show (slowRec s clip channel 0 t0req pps).minA = []
      rw [hrec]
    · show (slowRec s clip channel 0 t0req pps).maxA = []
      rw [hrec]
    · show (slowRec s clip channel 0 t0req pps).rmsA = []
      rw [hrec]

theorem c9_witness :
    (GetWaveDisplay stateA clipConst 0 0 1 1).ok = true ∧
    (GetWaveDisplay stateA clipConst 0 0 1 1).seqCall = none ∧
    (fastHitB (stateA.mWaveCaches.getD 0 none) (1 / 1) 0 clipConst.rate
        stateA.mDirty (1 + clipConst.trimLeft) = false →
      ((GetWaveDisplay stateA clipConst 0 0 1 1).state.mWaveCaches =
         stateA.mWaveCaches.set 0 (some (slowNewCache stateA clipConst 0 0 1 1)) ∧
       (slowNewCache stateA clipConst 0 0 1 1).len = 0 ∧
       (slowNewCache stateA clipConst 0 0 1 1).minArr = [] ∧
       (slowNewCache stateA clipConst 0 0 1 1).maxArr = [] ∧
       (slowNewCache stateA clipConst 0 0 1 1).rmsArr = [] ∧
       (slowNewCache stateA clipConst 0 0 1 1).start = 1 + clipConst.trimLeft ∧
       (slowNewCache stateA clipConst 0 0 1 1).dirty = stateA.mDirty)) :=
  ⟨(c9_zero_width stateA clipConst 0 1 1).1,
    (c9_zero_width stateA clipConst 0 1 1).2.1,
    (c9_zero_width stateA clipConst 0 1 1).2.2.2⟩

theorem getD_set_none_self (l : List (Option WaveCache)) (ch : ℕ) :
    (l.set ch none).getD ch none = none := by
  by_cases h : ch < l.length
  · exact getD_set_self _ _ _ _ (by simpa using h)
  · rw [List.set_eq_of_length_le (by omega), List.getD_eq_getElem?_getD,
      List.getElem?_eq_none (by omega)]
    rfl

/-- C6: the cached entry's zoom matches exactly when
`|timePerPixel - 1/entry.pixelsPerSecond| * requestedWidth < 1/sampleRate`;
a request whose accumulated drift is below this threshold is eligible for
reuse (the usable-for-correction test reduces to this inequality plus the
length and generation checks), the threshold is monotone in the drift, and a
request above it ignores the cached entry entirely — `GetWaveDisplay`
behaves exactly as if the channel's entry were absent, i.e. full recompute. -/
theorem c6_zoom_match_threshold :
    (∀ (c : WaveCache) (tstep : ℚ) (w : ℕ) (rate : ℤ),
      ppsMatchB (some c) tstep w rate = true ↔
        |tstep - 1 / c.pps| * (w : ℚ) < 1 / (rate : ℚ)) ∧
    (∀ (c : WaveCache) (tstep : ℚ) (w : ℕ) (rate mDirty : ℤ),
      matchB (some c) tstep w rate mDirty = true ↔
        (|tstep - 1 / c.pps| * (w : ℚ) < 1 / (rate : ℚ) ∧ 0 < c.len ∧
          c.dirty = mDirty)) ∧
    (∀ (c c' : WaveCache) (tstep : ℚ) (w : ℕ) (rate : ℤ),
      |tstep - 1 / c.pps| ≤ |tstep - 1 / c'.pps| →
      ppsMatchB (some c') tstep w rate = true →
      ppsMatchB (some c) tstep w rate = true) ∧
    (∀ (s : CacheState) (clip : Clip) (channel width : ℕ) (t0req pps : ℚ)
        (c : WaveCache),
      s.mWaveCaches.getD channel none = some c →
      ppsMatchB (some c) (1 / pps) width clip.rate = false →
      GetWaveDisplay s clip channel width t0req pps =
        GetWaveDisplay ⟨s.mWaveCaches.set channel none, s.mDirty⟩ clip channel
          width t0req pps) := by
  refine ⟨?_, ?_, ?_, ?_⟩
  · intro c tstep w rate
    simp [ppsMatchB]
  · intro c tstep w rate mDirty
    simp [matchB, ppsMatchB, and_assoc]
  · intro c c' tstep w rate hle h
    simp only [ppsMatchB, decide_eq_true_eq] at h ⊢
    calc |tstep - 1 / c.pps| * (w : ℚ) ≤ |tstep - 1 / c'.pps| * (w : ℚ) :=
          mul_le_mul_of_nonneg_right hle (by positivity)
      _ < 1 / (rate : ℚ) := h
  · intro s clip channel width t0req pps c hc hpps
    have hm1 : matchB (s.mWaveCaches.getD channel none) (1 / pps) width
        clip.rate s.mDirty = false := by
      rw [hc]
      simp only [matchB]
      rw [hpps]
      simp
    have hgd2 : (s.mWaveCaches.set channel none).getD channel none = none :=
      getD_set_none_self s.mWaveCaches channel
    have hm2 : matchB ((s.mWaveCaches.set channel none).getD channel none)
        (1 / pps) width clip.rate s.mDirty = false := by
      rw [hgd2]
      rfl
    have hcorr1 : slowCorr s clip channel width t0req pps = (0, 0, 0, 0) := by
      rw [slowCorr, hm1]
      rfl
    have hcorr2 : slowCorr ⟨s.mWaveCaches.set channel none, s.mDirty⟩ clip
        channel width t0req pps = (0, 0, 0, 0) := by
      rw [slowCorr, hm2]
      rfl
    have hwhere : slowWhere s clip channel width t0req pps =
        slowWhere ⟨s.mWaveCaches.set channel none, s.mDirty⟩ clip channel width
          t0req pps := by
      rw [slowWhere, slowWhere, hcorr1, hcorr2]
    have hcopy : slowCopied s clip channel width t0req pps =
        slowCopied ⟨s.mWaveCaches.set channel none, s.mDirty⟩ clip channel width
          t0req pps := by
      rw [slowCopied, slowCopied, hcorr1, hcorr2]
      simp
    have hp0eq : slowP0 s clip channel width t0req pps =
        slowP0 ⟨s.mWaveCaches.set channel none, s.mDirty⟩ clip channel width
          t0req pps := by
      rw [slowP0, slowP0, hcorr1, hcorr2]
    have hp1eq : slowP1 s clip channel width t0req pps =
        slowP1 ⟨s.mWaveCaches.set channel none, s.mDirty⟩ clip channel width
          t0req pps := by
      rw [slowP1, slowP1, hcorr1, hcorr2]
    have hrec : slowRec s clip channel width t0req pps =
        slowRec ⟨s.mWaveCaches.set channel none, s.mDirty⟩ clip channel width
          t0req pps := by
      rw [slowRec, slowRec, hwhere, hcopy, hp0eq, hp1eq]
    have hnc : slowNewCache s clip channel width t0req pps =
        slowNewCache ⟨s.mWaveCaches.set channel none, s.mDirty⟩ clip channel
          width t0req pps := by
      rw [slowNewCache, slowNewCache, hrec, hwhere]
    have hfast1 : fastHitB (s.mWaveCaches.getD channel none) (1 / pps) width
        clip.rate s.mDirty (t0req + clip.trimLeft) = false := by
      rw [hc]
      simp only [fastHitB, matchB]
      rw [hpps]
      simp
    have hfast2 : fastHitB ((s.mWaveCaches.set channel none).getD channel none)
        (1 / pps) width clip.rate s.mDirty (t0req + clip.trimLeft) = false := by
      rw [hgd2]
      rfl
    rw [GetWaveDisplay_slow s clip channel width t0req pps hfast1,
      GetWaveDisplay_slow ⟨s.mWaveCaches.set channel none, s.mDirty⟩ clip
        channel width t0req pps hfast2]
    simp only [slowPath]
    rw [hrec, hwhere, hnc]
    simp [List.set_set]

theorem c6_witness :
    (ppsMatchB (some entryA) (1 / 1) 1 clipConst.rate = true ↔
      |1 / 1 - 1 / entryA.pps| * (1 : ℚ) < 1 / (clipConst.rate : ℚ)) ∧
    (|(1 : ℚ) - 1 / entryA.pps| ≤
        |(1 : ℚ) -
          1 / (⟨0, 1, 0, 2, 1, [0, 1], [1], [1], [1]⟩ : WaveCache).pps| ∧
      ppsMatchB (some ⟨0, 1, 0, 2, 1, [0, 1], [1], [1], [1]⟩) 1 1
        clipConst.rate = true ∧
      ppsMatchB (some entryA) 1 1 clipConst.rate = true) ∧
    (ppsMatchB (some entryA) (1 / (1 / 3)) 1 clipConst.rate = false ∧
      stateA.mWaveCaches.getD 0 none = some entryA ∧
      GetWaveDisplay stateA clipConst 0 1 0 (1 / 3) =
        GetWaveDisplay ⟨stateA.mWaveCaches.set 0 none, stateA.mDirty⟩ clipConst
          0 1 0 (1 / 3)) :=
  ⟨c6_zoom_match_threshold.1 entryA (1 / 1) 1 clipConst.rate,
    ⟨by decide, by decide,
      c6_zoom_match_threshold.2.2.1 entryA
        ⟨0, 1, 0, 2, 1, [0, 1], [1], [1], [1]⟩ 1 1 clipConst.rate (by decide)
        (by decide)⟩,
    ⟨by decide, by decide,
      c6_zoom_match_threshold.2.2.2 stateA clipConst 0 1 0 (1 / 3) entryA
        (by decide) (by decide)⟩⟩

/-- C4 counterexample: in a full-recompute request over boundaries
`[0, 2, 4]` with 3 committed samples, column 1 (sample range `[2, 4)`)
straddles the committed boundary, yet its summary comes from the append
buffer (value 7, the buffer's first sample — the durable stub would return
5) and the durable store is invoked only for `[0, 1)` — the straddling
column is NOT deferred to durable-store summarization, refuting the claim
as stated. -/
theorem c4_counterexample :
    ((slowWhere stateEmptyEntry clipAppend 0 2 0 1).getD 1 0 = 2 ∧
     clipAppend.numSamples 0 = 3 ∧
     (slowWhere stateEmptyEntry clipAppend 0 2 0 1).getD 2 0 = 4 ∧
     slowP0 stateEmptyEntry clipAppend 0 2 0 1 = 0 ∧
     slowP1 stateEmptyEntry clipAppend 0 2 0 1 = 2) ∧
    (GetWaveDisplay stateEmptyEntry clipAppend 0 2 0 1).minOut.getD 1 0 = 7 ∧
    (GetWaveDisplay stateEmptyEntry clipAppend 0 2 0 1).seqCall =
      some (0, 1) := by
  exact ⟨⟨by decide, by decide, by decide, by decide, by decide⟩, by decide,
    by decide⟩

/-- C4 (amended): within the recompute range the scan stops at the first
column whose END boundary exceeds the committed sample count; all columns it
defers to the durable store (those before the scan position) end at or below
the committed count and are untouched by the append pass; every column the
append pass summarizes has its end boundary beyond the committed count (its
start may straddle the boundary — the committed part is then ignored);
columns with an empty clipped range are skipped rather than stopping the
pass; and the durable-store recompute range is always one contiguous
interval starting at `p0` — shrunk to exactly the columns before the scan
position whenever the append pass updated anything. -/
theorem c4_append_partition (clip : Clip) (channel : ℕ) (wh : List ℤ)
    (mn mx rm : List ℚ) (p0 p1 : ℕ) :
    ((∀ j : ℕ, p0 ≤ j →
        j < scanAppendStart wh (clip.numSamples channel) p0 (p1 - p0) →
        wh.getD (j + 1) 0 ≤ clip.numSamples channel) ∧
     (∀ i : ℕ,
        appendHandled wh (clip.numSamples channel) clip.appendBufferLen i =
          true →
        clip.numSamples channel < wh.getD (i + 1) 0) ∧
     (∀ i : ℕ, i < scanAppendStart wh (clip.numSamples channel) p0 (p1 - p0) →
        ((recomputePassed clip channel wh mn mx rm p0 p1).1.getD i 0 =
            mn.getD i 0 ∧
          (recomputePassed clip channel wh mn mx rm p0 p1).2.1.getD i 0 =
            mx.getD i 0 ∧
          (recomputePassed clip channel wh mn mx rm p0 p1).2.2.1.getD i 0 =
            rm.getD i 0)) ∧
     ((recompute clip channel wh mn mx rm p0 p1).seqCall = none ∨
      ∃ q : ℕ, (recompute clip channel wh mn mx rm p0 p1).seqCall =
        some (p0, q) ∧ p0 < q ∧ q ≤ p1) ∧
     ((scanAppendStart wh (clip.numSamples channel) p0 (p1 - p0) < p1 ∧
        (recomputePassed clip channel wh mn mx rm p0 p1).2.2.2 = true) →
       ((recompute clip channel wh mn mx rm p0 p1).seqCall = none ∨
        (recompute clip channel wh mn mx rm p0 p1).seqCall =
          some (p0, scanAppendStart wh (clip.numSamples channel) p0
            (p1 - p0))))) := by
  refine ⟨?_, ?_, ?_, ?_, ?_⟩
  · intro j hj1 hj2
    exact scanAppendStart_before wh (clip.numSamples channel) (p1 - p0) p0 j
      hj1 hj2
  · intro i hh
    exact appendHandled_ends_beyond wh (clip.numSamples channel)
      clip.appendBufferLen i hh
  · intro i hi
    simp only [recomputePassed]
    split
    · exact appendFold_out wh (clip.numSamples channel) clip.appendBufferLen
        (clip.appendBuffer channel) _ _ _ i 0 (Or.inl hi)
    · exact ⟨rfl, rfl, rfl⟩
  · exact recompute_seqCall_shape clip channel wh mn mx rm p0 p1
  · intro h
    exact recompute_seqCall_shrunk clip channel wh mn mx rm p0 p1 h.2 h.1

theorem c4_witness :
    ((0 : ℕ) ≤ 0 ∧
      0 < scanAppendStart [0, 2, 4] (clipAppend.numSamples 0) 0 (2 - 0) ∧
      List.getD [0, 2, 4] (0 + 1) 0 ≤ clipAppend.numSamples 0) ∧
    (appendHandled [0, 2, 4] (clipAppend.numSamples 0)
        clipAppend.appendBufferLen 1 = true ∧
      clipAppend.numSamples 0 < List.getD [0, 2, 4] (1 + 1) 0) ∧
    ((recompute clipAppend 0 [0, 2, 4] [0, 0] [0, 0] [0, 0] 0 2).seqCall =
        none ∨
      ∃ q : ℕ, (recompute clipAppend 0 [0, 2, 4] [0, 0] [0, 0] [0, 0] 0
        2).seqCall = some (0, q) ∧ 0 < q ∧ q ≤ 2) :=
  ⟨⟨by omega, by decide,
      (c4_append_partition clipAppend 0 [0, 2, 4] [0, 0] [0, 0] [0, 0] 0 2).1
        0 (by omega) (by decide)⟩,
    ⟨by decide,
      (c4_append_partition clipAppend 0 [0, 2, 4] [0, 0] [0, 0] [0, 0] 0
        2).2.1 1 (by decide)⟩,
    (c4_append_partition clipAppend 0 [0, 2, 4] [0, 0] [0, 0] [0, 0] 0
      2).2.2.2.1⟩

theorem slowCopied_len (s : CacheState) (clip : Clip) (channel width : ℕ)
    (t0req pps : ℚ) :
    ((slowCopied s clip channel width t0req pps).1.length = width ∧
     (slowCopied s clip channel width t0req pps).2.1.length = width ∧
     (slowCopied s clip channel width t0req pps).2.2.length = width) := by
  simp only [slowCopied]
  split
  · dsimp only
    refine ⟨?_, ?_, ?_⟩
    · rw [copySeg, setEach_length, List.length_replicate]
    · rw [copySeg, setEach_length, List.length_replicate]
    · rw [copySeg, setEach_length, List.length_replicate]
  · dsimp only
    refine ⟨?_, ?_, ?_⟩
    · rw [List.length_replicate]
    · rw [List.length_replicate]
    · rw [List.length_replicate]

theorem slowCorr_copy_le (s : CacheState) (clip : Clip) (channel width : ℕ)
    (t0req pps : ℚ) :
    ((slowCorr s clip channel width t0req pps).2.2.1 ≤ width ∧
     (slowCorr s clip channel width t0req pps).2.2.2 ≤ width) := by
  simp only [slowCorr, corrParts]
  split
  · split
    · exact ⟨Nat.min_le_left _ _, Nat.min_le_left _ _⟩
    · exact ⟨Nat.zero_le width, Nat.zero_le width⟩
  · exact ⟨Nat.zero_le width, Nat.zero_le width⟩

theorem slowP1_le (s : CacheState) (clip : Clip) (channel width : ℕ)
    (t0req pps : ℚ) : slowP1 s clip channel width t0req pps ≤ width := by
  obtain ⟨hle1, _⟩ := slowCorr_copy_le s clip channel width t0req pps
  simp only [slowP1, computeP1]
  split
  · exact hle1
  · exact Nat.le_refl width

/-- C5 counterexample: with an empty append buffer, a request whose single
column's full sample range (`[1, 2)`) lies beyond the committed count (1)
still invokes the durable store for that column (`seqCall` covers `[0, 1)`)
and the column's returned value (5) is the durable stub's, not the append
buffer's — refuting "the durable-store summarizer is never invoked for that
column". -/
theorem c5_counterexample :
    ((slowWhere stateEmptyEntry clipConst 0 1 1 1).getD 0 0 = 1 ∧
     clipConst.numSamples 0 = 1 ∧
     clipConst.appendBufferLen = 0 ∧
     slowP0 stateEmptyEntry clipConst 0 1 1 1 = 0 ∧
     slowP1 stateEmptyEntry clipConst 0 1 1 1 = 1) ∧
    (GetWaveDisplay stateEmptyEntry clipConst 0 1 1 1).seqCall =
      some (0, 1) ∧
    (GetWaveDisplay stateEmptyEntry clipConst 0 1 1 1).minOut.getD 0 0 = 5 := by
  exact ⟨⟨by decide, by decide, by decide, by decide, by decide⟩, by decide,
    by decide⟩

/-- C5 (amended): for every pixel column in the recompute range whose full
sample range lies beyond the committed count AND whose clipped range into the
append buffer is nonempty, the installed entry's (and, on success, the
returned arrays') min/max/rms for that column are the append-buffer summary —
min and max are true extrema of the clipped samples and
`rms = sqrt(sum of squares / count)` — and the durable-store call range
excludes that column.  (Without the nonempty-clip condition the original
claim fails: see the counterexample.) -/
theorem c5_append_buffer_precedence (s : CacheState) (clip : Clip)
    (channel width i : ℕ) (t0req pps : ℚ)
    (hfastn : fastHitB (s.mWaveCaches.getD channel none) (1 / pps) width
      clip.rate s.mDirty (t0req + clip.trimLeft) = false)
    (h0 : slowP0 s clip channel width t0req pps ≤ i)
    (h1 : i < slowP1 s clip channel width t0req pps)
    (hbeyond : clip.numSamples channel ≤
      (slowWhere s clip channel width t0req pps).getD i 0)
    (hh : appendHandled (slowWhere s clip channel width t0req pps)
      (clip.numSamples channel) clip.appendBufferLen i = true)
    (hbuf : (clip.appendBuffer channel).length = clip.appendBufferLen) :
    ((slowNewCache s clip channel width t0req pps).minArr.getD i 0 =
        (appendVal (slowWhere s clip channel width t0req pps)
          (clip.numSamples channel) clip.appendBufferLen
          (clip.appendBuffer channel) i).1 ∧
     (slowNewCache s clip channel width t0req pps).maxArr.getD i 0 =
        (appendVal (slowWhere s clip channel width t0req pps)
          (clip.numSamples channel) clip.appendBufferLen
          (clip.appendBuffer channel) i).2.1 ∧
     (slowNewCache s clip channel width t0req pps).rmsArr.getD i 0 =
        (appendVal (slowWhere s clip channel width t0req pps)
          (clip.numSamples channel) clip.appendBufferLen
          (clip.appendBuffer channel) i).2.2 ∧
     (∀ q1 q2 : ℕ,
        (GetWaveDisplay s clip channel width t0req pps).seqCall =
          some (q1, q2) → q2 ≤ i) ∧
     ((GetWaveDisplay s clip channel width t0req pps).ok = true →
        ((GetWaveDisplay s clip channel width t0req pps).minOut.getD i 0 =
            (appendVal (slowWhere s clip channel width t0req pps)
              (clip.numSamples channel) clip.appendBufferLen
              (clip.appendBuffer channel) i).1 ∧
          (GetWaveDisplay s clip channel width t0req pps).maxOut.getD i 0 =
            (appendVal (slowWhere s clip channel width t0req pps)
              (clip.numSamples channel) clip.appendBufferLen
              (clip.appendBuffer channel) i).2.1 ∧
          (GetWaveDisplay s clip channel width t0req pps).rmsOut.getD i 0 =
            (appendVal (slowWhere s clip channel width t0req pps)
              (clip.numSamples channel) clip.appendBufferLen
              (clip.appendBuffer channel) i).2.2)) ∧
     ((appendVal (slowWhere s clip channel width t0req pps)
          (clip.numSamples channel) clip.appendBufferLen
          (clip.appendBuffer channel) i).1 ∈
        ((clip.appendBuffer channel).drop
          (appendLeft (slowWhere s clip channel width t0req pps)
            (clip.numSamples channel) i).toNat).take
          (appendRight (slowWhere s clip channel width t0req pps)
              (clip.numSamples channel) clip.appendBufferLen i -
            appendLeft (slowWhere s clip channel width t0req pps)
              (clip.numSamples channel) i).toNat ∧
      (∀ x ∈ ((clip.appendBuffer channel).drop
          (appendLeft (slowWhere s clip channel width t0req pps)
            (clip.numSamples channel) i).toNat).take
          (appendRight (slowWhere s clip channel width t0req pps)
              (clip.numSamples channel) clip.appendBufferLen i -
            appendLeft (slowWhere s clip channel width t0req pps)
              (clip.numSamples channel) i).toNat,
        (appendVal (slowWhere s clip channel width t0req pps)
          (clip.numSamples channel) clip.appendBufferLen
          (clip.appendBuffer channel) i).1 ≤ x ∧
        x ≤ (appendVal (slowWhere s clip channel width t0req pps)
          (clip.numSamples channel) clip.appendBufferLen
          (clip.appendBuffer channel) i).2.1) ∧
      (appendVal (slowWhere s clip channel width t0req pps)
          (clip.numSamples channel) clip.appendBufferLen
          (clip.appendBuffer channel) i).2.2 =
        Rat.sqrt (((((clip.appendBuffer channel).drop
            (appendLeft (slowWhere s clip channel width t0req pps)
              (clip.numSamples channel) i).toNat).take
            (appendRight (slowWhere s clip channel width t0req pps)
                (clip.numSamples channel) clip.appendBufferLen i -
              appendLeft (slowWhere s clip channel width t0req pps)
                (clip.numSamples channel) i).toNat).map
            (fun x => x * x)).sum /
          (((appendRight (slowWhere s clip channel width t0req pps)
                (clip.numSamples channel) clip.appendBufferLen i -
              appendLeft (slowWhere s clip channel width t0req pps)
                (clip.numSamples channel) i).toNat : ℚ))))) := by
  have hlen := slowCopied_len s clip channel width t0req pps
  have hiw : i < width := Nat.lt_of_lt_of_le h1 (slowP1_le s clip channel width t0req pps)
  obtain ⟨e1, e2, e3, e4⟩ :=
    recompute_handled clip channel (slowWhere s clip channel width t0req pps)
      (slowCopied s clip channel width t0req pps).1
      (slowCopied s clip channel width t0req pps).2.1
      (slowCopied s clip channel width t0req pps).2.2
      (slowP0 s clip channel width t0req pps)
      (slowP1 s clip channel width t0req pps) i 0 h0 h1 hh
      (by rw [hlen.1]; exact hiw) (by rw [hlen.2.1]; exact hiw)
      (by rw [hlen.2.2]; exact hiw)
  have hgw := GetWaveDisplay_slow s clip channel width t0req pps hfastn
  have hpb : ((clip.appendBuffer channel).drop
      (appendLeft (slowWhere s clip channel width t0req pps)
        (clip.numSamples channel) i).toNat).take
      (appendRight (slowWhere s clip channel width t0req pps)
          (clip.numSamples channel) clip.appendBufferLen i -
        appendLeft (slowWhere s clip channel width t0req pps)
          (clip.numSamples channel) i).toNat ≠ [] := by
    have hlr : appendLeft (slowWhere s clip channel width t0req pps)
        (clip.numSamples channel) i <
        appendRight (slowWhere s clip channel width t0req pps)
          (clip.numSamples channel) clip.appendBufferLen i := by
      simpa [appendHandled] using hh
    have hl0 : (0 : ℤ) ≤ appendLeft (slowWhere s clip channel width t0req pps)
        (clip.numSamples channel) i := le_max_left 0 _
    have hrle : appendRight (slowWhere s clip channel width t0req pps)
        (clip.numSamples channel) clip.appendBufferLen i ≤
        (clip.appendBufferLen : ℤ) := min_le_left _ _
    refine List.length_pos.mp ?_
    rw [List.length_take, List.length_drop, hbuf]
    omega
  obtain ⟨s1, s2, s3, s4, s5⟩ := bufferSummary_spec (clip.appendBuffer channel)
    (appendLeft (slowWhere s clip channel width t0req pps)
      (clip.numSamples channel) i).toNat
    (appendRight (slowWhere s clip channel width t0req pps)
        (clip.numSamples channel) clip.appendBufferLen i -
      appendLeft (slowWhere s clip channel width t0req pps)
        (clip.numSamples channel) i).toNat hpb
  refine ⟨e1, e2, e3, ?_, ?_, s1, ?_, s5⟩
  · intro q1 q2 hq
    rw [hgw, slowPath_seqCall] at hq
    exact e4 q1 q2 hq
  · intro hok
    rw [hgw] at hok ⊢
    rw [slowPath_ok] at hok
    obtain ⟨m1, m2, m3⟩ := slowPath_minOut s clip channel width t0req pps hok
    rw [m1, m2, m3]
    exact ⟨e1, e2, e3⟩
  · intro x hx
    exact ⟨s2 x hx, s4 x hx⟩

theorem c5_witness :
    (fastHitB (stateEmptyEntry.mWaveCaches.getD 0 none) (1 / 1) 3
        clipAppend.rate stateEmptyEntry.mDirty (0 + clipAppend.trimLeft) =
        false ∧
      slowP0 stateEmptyEntry clipAppend 0 3 0 1 ≤ 2 ∧
      2 < slowP1 stateEmptyEntry clipAppend 0 3 0 1 ∧
      clipAppend.numSamples 0 ≤
        (slowWhere stateEmptyEntry clipAppend 0 3 0 1).getD 2 0 ∧
      appendHandled (slowWhere stateEmptyEntry clipAppend 0 3 0 1)
        (clipAppend.numSamples 0) clipAppend.appendBufferLen 2 = true ∧
      (clipAppend.appendBuffer 0).length = clipAppend.appendBufferLen) ∧
    ((slowNewCache stateEmptyEntry clipAppend 0 3 0 1).minArr.getD 2 0 =
        (appendVal (slowWhere stateEmptyEntry clipAppend 0 3 0 1)
          (clipAppend.numSamples 0) clipAppend.appendBufferLen
          (clipAppend.appendBuffer 0) 2).1 ∧
      (∀ q1 q2 : ℕ,
        (GetWaveDisplay stateEmptyEntry clipAppend 0 3 0 1).seqCall =
          some (q1, q2) → q2 ≤ 2)) :=
  ⟨⟨by decide, by decide, by decide, by decide, by decide, by decide⟩,
    (c5_append_buffer_precedence stateEmptyEntry clipAppend 0 3 2 0 1
        (by decide) (by decide) (by decide) (by decide) (by decide)
        (by decide)).1,
    (c5_append_buffer_precedence stateEmptyEntry clipAppend 0 3 2 0 1
        (by decide) (by decide) (by decide) (by decide) (by decide)
        (by decide)).2.2.2.1⟩

/-- C3: reuse correctness.  When a usable cached entry (zoom match, nonzero
length, current generation) covers pixels `[0, width)` and the request is the
same grid shifted forward by `k` whole pixels (the CorrectionSolver returns
offset `k` with zero sub-sample correction), `GetWaveDisplay` copies the old
entry's min/max/rms element-wise, shifted by `k`, into the new entry for
columns `[0, width - k)` — without recomputing them — and the recompute range
is exactly the trailing `[width - k, width)`: the durable-store call (if any)
stays inside it. -/
theorem c3_reuse_correctness (s : CacheState) (clip : Clip)
    (channel width k : ℕ) (t0req pps : ℚ) (c : WaveCache)
    (hc : s.mWaveCaches.getD channel none = some c)
    (hm : matchB (some c) (1 / pps) width clip.rate s.mDirty = true)
    (hsne : ¬c.start = t0req + clip.trimLeft)
    (hlen : c.len = width)
    (hk1 : 1 ≤ k) (hk2 : k < width)
    (hfc : findCorrection c.whereArr (t0req + clip.trimLeft) clip.rate
      ((clip.rate : ℚ) * (1 / pps)) = ((k : ℤ), 0)) :
    (slowP0 s clip channel width t0req pps = width - k ∧
     slowP1 s clip channel width t0req pps = width ∧
     (GetWaveDisplay s clip channel width t0req pps).state.mWaveCaches.getD
        channel none = some (slowNewCache s clip channel width t0req pps) ∧
     (∀ i : ℕ, i < width - k →
       ((slowNewCache s clip channel width t0req pps).minArr.getD i 0 =
          c.minArr.getD (i + k) 0 ∧
        (slowNewCache s clip channel width t0req pps).maxArr.getD i 0 =
          c.maxArr.getD (i + k) 0 ∧
        (slowNewCache s clip channel width t0req pps).rmsArr.getD i 0 =
          c.rmsArr.getD (i + k) 0)) ∧
     (∀ q1 q2 : ℕ,
       (GetWaveDisplay s clip channel width t0req pps).seqCall =
         some (q1, q2) → q1 = width - k ∧ q2 ≤ width) ∧
     ((GetWaveDisplay s clip channel width t0req pps).ok = true →
       ∀ i : ℕ, i < width - k →
         ((GetWaveDisplay s clip channel width t0req pps).minOut.getD i 0 =
            c.minArr.getD (i + k) 0 ∧
          (GetWaveDisplay s clip channel width t0req pps).maxOut.getD i 0 =
            c.maxArr.getD (i + k) 0 ∧
          (GetWaveDisplay s clip channel width t0req pps).rmsOut.getD i 0 =
            c.rmsArr.getD (i + k) 0)) ∧
     (∀ (s2 : CacheState) (clip2 : Clip) (ch2 w2 i2 : ℕ) (t2 p2 : ℚ)
        (c2 : WaveCache),
       s2.mWaveCaches.getD ch2 none = some c2 →
       (slowCorr s2 clip2 ch2 w2 t2 p2).2.2.1 ≤ i2 →
       i2 < (slowCorr s2 clip2 ch2 w2 t2 p2).2.2.2 →
       i2 < w2 →
       ((slowCopied s2 clip2 ch2 w2 t2 p2).1.getD i2 0 =
          c2.minArr.getD ((i2 : ℤ) + (slowCorr s2 clip2 ch2 w2 t2 p2).1).toNat
            0 ∧
        (slowCopied s2 clip2 ch2 w2 t2 p2).2.1.getD i2 0 =
          c2.maxArr.getD ((i2 : ℤ) + (slowCorr s2 clip2 ch2 w2 t2 p2).1).toNat
            0 ∧
        (slowCopied s2 clip2 ch2 w2 t2 p2).2.2.getD i2 0 =
          c2.rmsArr.getD ((i2 : ℤ) + (slowCorr s2 clip2 ch2 w2 t2 p2).1).toNat
            0))) := by
  have hfast : fastHitB (s.mWaveCaches.getD channel none) (1 / pps) width
      clip.rate s.mDirty (t0req + clip.trimLeft) = false := by
    rw [hc]
    simp only [fastHitB]
    rw [hm]
    simp [hsne]
  have hcorr : slowCorr s clip channel width t0req pps =
      ((k : ℤ), 0, 0, width - k) := by
    simp only [slowCorr]
    rw [hc, hm]
    simp only [corrParts, if_true]
    rw [hfc, hlen]
    have h3 : min width (max 0 (-(k : ℤ))).toNat = 0 := by omega
    have h4 : min width (max 0 ((width : ℤ) - (k : ℤ))).toNat = width - k := by
      omega
    simp only [copyRange]
    rw [h3, h4]
  have hp0 : slowP0 s clip channel width t0req pps = width - k := by
    simp only [slowP0]
    rw [hcorr]
    simp [computeP0]
  have hp1 : slowP1 s clip channel width t0req pps = width := by
    simp only [slowP1]
    rw [hcorr]
    simp only [computeP1]
    split
    · omega
    · rfl
  have hcop : ∀ i : ℕ, i < width - k →
      ((slowCopied s clip channel width t0req pps).1.getD i 0 =
          c.minArr.getD (i + k) 0 ∧
        (slowCopied s clip channel width t0req pps).2.1.getD i 0 =
          c.maxArr.getD (i + k) 0 ∧
        (slowCopied s clip channel width t0req pps).2.2.getD i 0 =
          c.rmsArr.getD (i + k) 0) := by
    intro i hi
    have hik : ((i : ℤ) + (k : ℤ)).toNat = i + k := by omega
    simp only [slowCopied]
    rw [hcorr, hc]
    dsimp only
    rw [if_pos (by omega : (0 : ℕ) < width - k)]
    dsimp only
    refine ⟨?_, ?_, ?_⟩
    · rw [copySeg, setEach_getD_in _ _ _ _ _ _ (Nat.zero_le i) (by omega)
        (by rw [List.length_replicate]; omega), hik]
    · rw [copySeg, setEach_getD_in _ _ _ _ _ _ (Nat.zero_le i) (by omega)
        (by rw [List.length_replicate]; omega), hik]
    · rw [copySeg, setEach_getD_in _ _ _ _ _ _ (Nat.zero_le i) (by omega)
        (by rw [List.length_replicate]; omega), hik]
  have hvals : ∀ i : ℕ, i < width - k →
      ((slowNewCache s clip channel width t0req pps).minArr.getD i 0 =
          c.minArr.getD (i + k) 0 ∧
        (slowNewCache s clip channel width t0req pps).maxArr.getD i 0 =
          c.maxArr.getD (i + k) 0 ∧
        (slowNewCache s clip channel width t0req pps).rmsArr.getD i 0 =
          c.rmsArr.getD (i + k) 0) := by
    intro i hi
    obtain ⟨o1, o2, o3⟩ := recompute_out_lo clip channel
      (slowWhere s clip channel width t0req pps)
      (slowCopied s clip channel width t0req pps).1
      (slowCopied s clip channel width t0req pps).2.1
      (slowCopied s clip channel width t0req pps).2.2
      (slowP0 s clip channel width t0req pps)
      (slowP1 s clip channel width t0req pps) i 0 (by rw [hp0]; omega)
    obtain ⟨k1, k2, k3⟩ := hcop i hi
    exact ⟨o1.trans k1, o2.trans k2, o3.trans k3⟩
  have hgw := GetWaveDisplay_slow s clip channel width t0req pps hfast
  have hch : channel < s.mWaveCaches.length := getD_some_lt hc
  refine ⟨hp0, hp1, ?_, hvals, ?_, ?_, ?_⟩
  · rw [hgw]
    exact slowPath_entry s clip channel width t0req pps hch
  · intro q1 q2 hq
    rw [hgw, slowPath_seqCall] at hq
    rcases recompute_seqCall_shape clip channel
      (slowWhere s clip channel width t0req pps)
      (slowCopied s clip channel width t0req pps).1
      (slowCopied s clip channel width t0req pps).2.1
      (slowCopied s clip channel width t0req pps).2.2
      (slowP0 s clip channel width t0req pps)
      (slowP1 s clip channel width t0req pps) with hn | ⟨q, hsome, hlt, hle⟩
    · rw [slowRec] at hq
      rw [hn] at hq
      exact absurd hq (by simp)
    · rw [slowRec] at hq
      rw [hsome] at hq
      injection hq with hq'
      injection hq' with e1 e2
      constructor
      · omega
      · rw [← e2]
        omega
  · intro hok i hi
    rw [hgw] at hok ⊢
    rw [slowPath_ok] at hok
    obtain ⟨m1, m2, m3⟩ := slowPath_minOut s clip channel width t0req pps hok
    rw [m1, m2, m3]
    exact hvals i hi
  · intro s2 clip2 ch2 w2 i2 t2 p2 c2 hc2 hcb hce hiw
    have hcblt : (slowCorr s2 clip2 ch2 w2 t2 p2).2.2.1 <
        (slowCorr s2 clip2 ch2 w2 t2 p2).2.2.2 := by omega
    simp only [slowCopied]
    rw [if_pos hcblt, hc2]
    dsimp only
    refine ⟨?_, ?_, ?_⟩
    · rw [copySeg, setEach_getD_in _ _ _ _ _ _ hcb (by omega)
        (by rw [List.length_replicate]; exact hiw)]
    · rw [copySeg, setEach_getD_in _ _ _ _ _ _ hcb (by omega)
        (by rw [List.length_replicate]; exact hiw)]
    · rw [copySeg, setEach_getD_in _ _ _ _ _ _ hcb (by omega)
        (by rw [List.length_replicate]; exact hiw)]

/-- A 100-column cache entry at origin 0, zoom 1 pixel per second, sample
rate 100 (100 samples per pixel), generation 0, with distinct per-column
summary values. -/
def entryC3 : WaveCache :=
  ⟨0, 100, 0, 1, 100, (List.range 101).map (fun i => (100 * (i : ℤ))),
    (List.range 100).map (fun i => ((i : ℚ))),
    (List.range 100).map (fun i => ((i : ℚ) + 200)),
    (List.range 100).map (fun i => ((i : ℚ) + 400))⟩

/-- A one-channel state holding `entryC3`. -/
def stateC3 : CacheState := ⟨[some entryC3], 0⟩

/-- A clip at rate 100 with ample committed samples, an empty append buffer,
and a constant-5 durable store. -/
def clipC3 : Clip :=
  ⟨0, 100, fun _ => 100000, 0, fun _ => [],
    fun _ _ n => some (List.replicate n 5, List.replicate n 5,
      List.replicate n 5)⟩

theorem c3_witness :
    (stateC3.mWaveCaches.getD 0 none = some entryC3 ∧
      matchB (some entryC3) (1 / 1) 100 clipC3.rate stateC3.mDirty = true ∧
      ¬entryC3.start = 2 + clipC3.trimLeft ∧
      entryC3.len = 100 ∧
      findCorrection entryC3.whereArr (2 + clipC3.trimLeft) clipC3.rate
        ((clipC3.rate : ℚ) * (1 / 1)) = ((2 : ℤ), 0)) ∧
    (slowP0 stateC3 clipC3 0 100 2 1 = 100 - 2 ∧
     slowP1 stateC3 clipC3 0 100 2 1 = 100 ∧
     (∀ i : ℕ, i < 100 - 2 →
       ((slowNewCache stateC3 clipC3 0 100 2 1).minArr.getD i 0 =
          entryC3.minArr.getD (i + 2) 0 ∧
        (slowNewCache stateC3 clipC3 0 100 2 1).maxArr.getD i 0 =
          entryC3.maxArr.getD (i + 2) 0 ∧
        (slowNewCache stateC3 clipC3 0 100 2 1).rmsArr.getD i 0 =
          entryC3.rmsArr.getD (i + 2) 0)) ∧
     (∀ q1 q2 : ℕ,
       (GetWaveDisplay stateC3 clipC3 0 100 2 1).seqCall = some (q1, q2) →
         q1 = 100 - 2 ∧ q2 ≤ 100)) :=
  ⟨⟨by decide, by decide, by decide, by decide, by decide⟩,
    (c3_reuse_correctness stateC3 clipC3 0 100 2 2 1 entryC3 (by decide)
        (by decide) (by decide) (by decide) (by decide) (by decide)
        (by decide)).1,
    (c3_reuse_correctness stateC3 clipC3 0 100 2 2 1 entryC3 (by decide)
        (by decide) (by decide) (by decide) (by decide) (by decide)
        (by decide)).2.1,
    (c3_reuse_correctness stateC3 clipC3 0 100 2 2 1 entryC3 (by decide)
        (by decide) (by decide) (by decide) (by decide) (by decide)
        (by decide)).2.2.2.1,
    (c3_reuse_correctness stateC3 clipC3 0 100 2 2 1 entryC3 (by decide)
        (by decide) (by decide) (by decide) (by decide) (by decide)
        (by decide)).2.2.2.2.1⟩

end RatKernelEval

end WaveformCacheModel
